import Mathlib

/-!
Shallow embedding of `src/merkle_set.py` (the packed patricia MerkleSet, its
reference implementation and the stateless proof verifiers) together with
theorems settling the specification claims.

Conventions of the embedding:
* Python `bytes`/`bytearray` values become `List Nat` (each entry a byte).
* Python exceptions become an explicit `Except PyErr` result.  The source
  distinguishes `SetError`, `AssertionError` (from `assert`), `IndexError`
  (out-of-range single-byte access) and `KeyError`/`TypeError`; `try/except`
  blocks are translated as matches on the error value, so an exception kind
  that a handler does not name propagates, exactly as in Python.
* The external hash primitives `blake2s` and `sha256` (imported from
  `hashlib`, not part of the repository) are parameters of every definition
  that hashes; theorems either hold for all choices of the parameter or
  instantiate it with an explicit computable stand-in.
* Recursions of the source that are not structural (cross-block descent,
  free-list chains) take an explicit fuel argument; exhausting fuel yields
  the distinguished error `PyErr.nonTermination`, which models a Python
  execution that would not return.  Theorems about concrete runs supply
  enough fuel for the run to finish.
-/

/-- Kinds of Python exception the translated source can raise. -/
inductive PyErr where
  | setError
  | assertionError
  | indexError
  | keyError
  | typeError
  | nonTermination
deriving DecidableEq, Repr

/-- Byte strings are lists of byte values. -/
abbrev Bytes := List Nat

/-- Tag constants from the source: the two high bits of a slot's first byte. -/
def EMPTY : Nat := 0

/-- Tag for a slot storing a set element directly. -/
def TERMINAL : Nat := 0x40

/-- Tag for a slot storing a valid subtree hash. -/
def MIDDLE : Nat := 0x80

/-- Tag for a slot whose stored hash is stale (also called LAZY). -/
def INVALID : Nat := TERMINAL ||| MIDDLE

/-- Status code: the terminal was unused (branch updates). -/
def NOTSTARTED : Nat := 2

/-- Status code: removal found only one element left below. -/
def ONELEFT : Nat := 3

/-- Status code: there might be only two things below. -/
def FRAGILE : Nat := 4

/-- Status code: an ancestor hash must be invalidated. -/
def INVALIDATING : Nat := 5

/-- Status code: nothing further to do. -/
def DONE : Nat := 6

/-- Status code: a leaf block ran out of cells. -/
def FULL : Nat := 7

/-- The all-zero 32-byte blank value. -/
def BLANK : Bytes := List.replicate 32 0

/-- Big-endian interpretation of a byte string (`from_bytes` in the source). -/
def from_bytes (f : Bytes) : Nat := f.foldl (fun a b => a * 256 + b) 0

/-- Big-endian encoding of `f` on `v` bytes (`to_bytes` in the source).  All
call sites of the source pass values below `256 ^ v`, so the truncation by
`% 256` never actually loses information. -/
def to_bytes (f v : Nat) : Bytes :=
  match v with
  | 0 => []
  | w + 1 => to_bytes (f / 256) w ++ [f % 256]

/-- Single-byte read `b[pos]`; out of range raises `IndexError` in Python. -/
def byteAt (b : Bytes) (pos : Nat) : Except PyErr Nat :=
  match b.get? pos with
  | some x => .ok x
  | none => .error .indexError

/-- Slice read `b[start:stop]`: Python slicing clamps and never raises. -/
def readSlice (b : Bytes) (start stop : Nat) : Bytes :=
  (b.drop start).take (stop - start)

/-- Slice write `b[start:stop] = thing` through the source's `safearray`,
which asserts `start < len b`, `stop ≤ len b` and `stop - start = len thing`
before writing. -/
def safeSetSlice (b : Bytes) (start stop : Nat) (thing : Bytes) : Except PyErr Bytes :=
  if start < b.length ∧ stop ≤ b.length ∧ start + thing.length = stop then
    .ok (b.take start ++ thing ++ b.drop stop)
  else .error .assertionError

/-- Single-byte write `b[pos] = x` through `safearray` bounds assertions. -/
def safeSetByte (b : Bytes) (pos x : Nat) : Except PyErr Bytes :=
  if pos < b.length then .ok (b.set pos x) else .error .assertionError

/-- Lexicographic strict comparison of Python byte strings. -/
def bytesLt : Bytes → Bytes → Bool
  | [], [] => false
  | [], _ :: _ => true
  | _ :: _, [] => false
  | a :: as, b :: bs => if a < b then true else if b < a then false else bytesLt as bs

/-- Insertion step for sorting lists of byte strings. -/
def insertSorted (x : Bytes) : List Bytes → List Bytes
  | [] => [x]
  | y :: ys => if bytesLt y x then y :: insertSorted x ys else x :: y :: ys

/-- Sorting a list of byte strings (`things.sort()` in the source). -/
def sortBytesList (l : List Bytes) : List Bytes := l.foldr insertSorted []

/-- Source `get_type`: the two high bits of the byte at `pos`. -/
def get_type (mybytes : Bytes) (pos : Nat) : Except PyErr Nat := do
  let x ← byteAt mybytes pos
  pure (x &&& INVALID)

/-- Source `make_invalid`: assert the slot is not already LAZY and set both
tag bits of the byte at `pos`. -/
def make_invalid (mybytes : Bytes) (pos : Nat) : Except PyErr Bytes := do
  let t ← get_type mybytes pos
  if t = INVALID then throw .assertionError
  let x ← byteAt mybytes pos
  safeSetByte mybytes pos (x ||| INVALID)

/-- Source `get_bit`: bit `i` of a 32-byte key, skipping the 2 tag bits. -/
def get_bit (mybytes : Bytes) (pos : Nat) : Except PyErr Nat := do
  if mybytes.length = 32 then
    let p := pos + 2
    let x ← byteAt mybytes (p / 8)
    pure ((x >>> (7 - p % 8)) &&& 1)
  else throw .assertionError

/-- Source `flip_terminal`: overwrite the top 2 bits of byte 0 with TERMINAL. -/
def flip_terminal (mystr : Bytes) : Except PyErr Bytes := do
  if mystr.length = 32 then
    let x ← byteAt mystr 0
    pure ([TERMINAL ||| (x &&& 0x3F)] ++ mystr.drop 1)
  else throw .assertionError

/-- Source `flip_middle`: overwrite the top 2 bits of byte 0 with MIDDLE. -/
def flip_middle (mystr : Bytes) : Except PyErr Bytes := do
  if mystr.length = 32 then
    let x ← byteAt mystr 0
    pure ([MIDDLE ||| (x &&& 0x3F)] ++ mystr.drop 1)
  else throw .assertionError

/-- Source `flip_invalid`: overwrite the top 2 bits of byte 0 with INVALID. -/
def flip_invalid (mystr : Bytes) : Except PyErr Bytes := do
  if mystr.length = 32 then
    let x ← byteAt mystr 0
    pure ([INVALID ||| (x &&& 0x3F)] ++ mystr.drop 1)
  else throw .assertionError

/-- Source `hasher`: sanity assertions then the MIDDLE-tagged blake2s digest
of the 64-byte concatenation of two slots. -/
def hasher (blake : Bytes → Bytes) (mystr : Bytes) : Except PyErr Bytes := do
  if mystr.length ≠ 64 then throw .assertionError
  let t0 ← get_type mystr 0
  let t1 ← get_type mystr 32
  if t0 = INVALID ∨ t1 = INVALID then throw .assertionError
  if (t0 = EMPTY ∨ t0 = TERMINAL) ∧ (t1 = EMPTY ∨ t1 = TERMINAL) then
    if ¬ (t0 = TERMINAL ∧ t1 = TERMINAL) then throw .assertionError
    if ¬ (bytesLt (readSlice mystr 0 32) (readSlice mystr 32 64) = true) then
      throw .assertionError
  if t0 = EMPTY ∧ readSlice mystr 0 32 ≠ BLANK then throw .assertionError
  if t1 = EMPTY ∧ readSlice mystr 32 64 ≠ BLANK then throw .assertionError
  let r := blake mystr
  let x ← byteAt r 0
  pure ([MIDDLE ||| (x &&& 0x3F)] ++ r.drop 1)

/-- Node of the in-memory tree built by `ReferenceMerkleSet` and by the proof
deserializer: the four Python classes `EmptyNode`, `TerminalNode`,
`MiddleNode` and `UnknownNode`, each carrying its stored `hash`. -/
inductive RNode where
  | emptyNode : RNode
  | terminalNode (h : Bytes) : RNode
  | middleNode (h : Bytes) (c0 c1 : RNode) : RNode
  | unknownNode (h : Bytes) : RNode
deriving DecidableEq, Repr

/-- Stored hash of a node (`EmptyNode` stores BLANK). -/
def RNode.hash : RNode → Bytes
  | .emptyNode => BLANK
  | .terminalNode h => h
  | .middleNode h _ _ => h
  | .unknownNode h => h

/-- Python `is_empty` (true only for `EmptyNode`). -/
def RNode.is_empty : RNode → Bool
  | .emptyNode => true
  | _ => false

/-- Python `is_terminal` (true only for `TerminalNode`). -/
def RNode.is_terminal : RNode → Bool
  | .terminalNode _ => true
  | _ => false

/-- Python `is_double`: raises `SetError` on empty and terminal nodes, is
false on unknown nodes, and on a middle node looks through an empty child
(mirroring the `for i in range(2)` loop of the source). -/
def RNode.is_double : RNode → Except PyErr Bool
  | .emptyNode => throw .setError
  | .terminalNode _ => throw .setError
  | .unknownNode _ => pure false
  | .middleNode _ c0 c1 =>
    if c1.is_empty then c0.is_double
    else if c0.is_empty then c1.is_double
    else pure (c0.is_terminal && c1.is_terminal)

/-- Bit check done by `TerminalNode.audit(_, bits)`: bit `start + i` of the
stored hash must equal `bits[i]` (an `assert` in the source). -/
def terminal_audit_bits (h : Bytes) (bits : List Nat) (start : Nat) : Except PyErr Unit :=
  match bits with
  | [] => pure ()
  | v :: rest => do
    let b ← get_bit h start
    if b = v then terminal_audit_bits h rest (start + 1) else throw .assertionError

/-- Python `TerminalNode.__init__`: asserts the hash is 32 bytes and, when
`bits` is given, audits that the hash's leading bits match them. -/
def mkTerminalNode (h : Bytes) (bits : Option (List Nat)) : Except PyErr RNode := do
  if h.length ≠ 32 then throw .assertionError
  match bits with
  | none => pure (.terminalNode h)
  | some bs => do
    terminal_audit_bits h bs 0
    pure (.terminalNode h)

/-- Python `MiddleNode.__init__`: the skip-level hashing rule (an empty
sibling of a double subtree reuses the subtree's hash), the canonical-pair
checks, and otherwise the MIDDLE-tagged blake2s of the two child hashes. -/
def mkMiddleNode (blake : Bytes → Bytes) (c0 c1 : RNode) : Except PyErr RNode := do
  let d0 ← if c1.is_empty then RNode.is_double c0 else pure false
  if d0 then
    pure (.middleNode c0.hash c0 c1)
  else
    let d1 ← if c0.is_empty then RNode.is_double c1 else pure false
    if d1 then
      pure (.middleNode c1.hash c0 c1)
    else do
      if (c0.is_empty || c0.is_terminal) && (c1.is_empty || c1.is_terminal) then
        if c0.is_empty || c1.is_empty then throw .setError
        if ¬ (bytesLt c0.hash c1.hash = true) then throw .setError
      let r := blake (c0.hash ++ c1.hash)
      let x ← byteAt r 0
      pure (.middleNode ([MIDDLE ||| (x &&& 0x3F)] ++ r.drop 1) c0 c1)

/-- Python `is_included(tocheck, depth, p)` on reference nodes: returns the
membership boolean and the proof buffer extended with this subtree's
serialization; raises `SetError` on an unknown node.  The source's mutually
recursive companion `other_included(tocheck, depth, p, collapse)` — the
sibling slot's summary, expanded in place when it is an uncollapsed double
subtree — only ever calls `is_included` back on the very same node, so it is
inlined here at its two call sites (the sibling of the descended child),
keeping the recursion structural. -/
def RNode.is_included (n : RNode) (tocheck : Bytes) (depth : Nat) (p : List Bytes) :
    Except PyErr (Bool × List Bytes) :=
  match n with
  | .emptyNode => pure (false, p ++ [[EMPTY]])
  | .terminalNode h => pure (tocheck == h, p ++ [h])
  | .unknownNode _ => throw .setError
  | .middleNode _ c0 c1 => do
    let p1 := p ++ [[MIDDLE]]
    let bit ← get_bit tocheck depth
    if bit = 0 then do
      let (r, p2) ← c0.is_included tocheck (depth + 1) p1
      -- other_included on the sibling c1, with collapse = not c0.is_empty
      let p3 ←
        (match c1 with
        | .emptyNode => pure (p2 ++ [[EMPTY]])
        | .terminalNode h => pure (p2 ++ [h])
        | .unknownNode h => do
          let fh ← flip_invalid h
          pure (p2 ++ [fh])
        | .middleNode h d0 d1 =>
          if !c0.is_empty then do
            let fh ← flip_invalid h
            pure (p2 ++ [fh])
          else do
            let d ← RNode.is_double (.middleNode h d0 d1)
            if !d then do
              let fh ← flip_invalid h
              pure (p2 ++ [fh])
            else do
              let (_, p3) ← c1.is_included tocheck (depth + 1) p2
              pure p3)
      pure (r, p3)
    else do
      -- other_included on the sibling c0, with collapse = not c1.is_empty
      let p2 ←
        (match c0 with
        | .emptyNode => pure (p1 ++ [[EMPTY]])
        | .terminalNode h => pure (p1 ++ [h])
        | .unknownNode h => do
          let fh ← flip_invalid h
          pure (p1 ++ [fh])
        | .middleNode h d0 d1 =>
          if !c1.is_empty then do
            let fh ← flip_invalid h
            pure (p1 ++ [fh])
          else do
            let d ← RNode.is_double (.middleNode h d0 d1)
            if !d then do
              let fh ← flip_invalid h
              pure (p1 ++ [fh])
            else do
              let (_, p2) ← c0.is_included tocheck (depth + 1) p1
              pure p2)
      let (r, p3) ← c1.is_included tocheck (depth + 1) p2
      pure (r, p3)

/-- State of a packed `MerkleSet` instance: the geometry parameters, the
33-byte root slot (stored as 32 bytes with the tag in the top bits), the
arena `pointers_to_arrays` mapping 8-byte handles (modelled as the numbers
they encode) to block contents, and the root block reference.  `next_id`
models Python's `id()`: a fresh allocation receives the next unused handle,
starting from 1 so that a handle never serializes to the all-zero 8 bytes
that mean None. -/
structure MerkleSetState where
  subblock_lengths : List Nat
  leaf_units : Nat
  root : Bytes
  pointers_to_arrays : List (Nat × Bytes)
  rootblock : Option Nat
  next_id : Nat
deriving DecidableEq, Repr

/-- Monad of the packed implementation: state plus Python exceptions. -/
abbrev PyM := StateT MerkleSetState (Except PyErr)

/-- Replace (or add) the binding of handle `h` in the arena. -/
def updateAssoc (l : List (Nat × Bytes)) (h : Nat) (b : Bytes) : List (Nat × Bytes) :=
  match l with
  | [] => [(h, b)]
  | (k, v) :: rest => if k = h then (k, b) :: rest else (k, v) :: updateAssoc rest h b

/-- Remove the binding of handle `h` from the arena. -/
def removeAssoc (l : List (Nat × Bytes)) (h : Nat) : List (Nat × Bytes) :=
  match l with
  | [] => []
  | (k, v) :: rest => if k = h then rest else (k, v) :: removeAssoc rest h

/-- Fetch the block bytes behind a handle (`KeyError` when absent, like the
Python dict lookup). -/
def heapLookup (h : Nat) : PyM Bytes := do
  let s ← get
  match s.pointers_to_arrays.lookup h with
  | some b => pure b
  | none => throw .keyError

/-- Overwrite the block bytes behind a handle. -/
def heapStore (h : Nat) (b : Bytes) : PyM Unit :=
  modify fun s => { s with pointers_to_arrays := updateAssoc s.pointers_to_arrays h b }

/-- Source `_deref`: the 8-byte big-endian serialization of a handle. -/
def mderef (h : Nat) : Bytes := to_bytes h 8

/-- Source `_ref`: an 8-byte reference resolves to None when all-zero and to
the referenced block's handle otherwise (`KeyError` when dangling). -/
def mref (r : Bytes) : PyM (Option Nat) := do
  if r.length ≠ 8 then throw .assertionError
  if r = to_bytes 0 8 then pure none
  else do
    let h := from_bytes r
    let s ← get
    if (s.pointers_to_arrays.lookup h).isSome then pure (some h)
    else throw .keyError

/-- Source `_deallocate`: delete a block from the arena. -/
def mdeallocate (h : Nat) : PyM Unit := do
  let s ← get
  if (s.pointers_to_arrays.lookup h).isSome then
    set { s with pointers_to_arrays := removeAssoc s.pointers_to_arrays h }
  else throw .keyError

/-- Python `None` flowing where a block is required raises `TypeError`. -/
def expectSome : Option Nat → PyM Nat
  | some h => pure h
  | none => throw .typeError

/-- Python `None` flowing where an integer position is required. -/
def expectPos : Option Nat → PyM Nat
  | some v => pure v
  | none => throw .typeError

/-- One-based child pointers inside leaf blocks: the source computes
`from_bytes(stored) - 1` and the callee immediately asserts the result is
non-negative, so a cleared (zero) pointer is an assertion failure. -/
def oneBased (stored : Nat) : PyM Nat :=
  if stored = 0 then throw .assertionError else pure (stored - 1)

/-- Read slice `block[start:stop]` of the block behind handle `block`. -/
def blockReadSlice (block : Nat) (start stop : Nat) : PyM Bytes := do
  let b ← heapLookup block
  pure (readSlice b start stop)

/-- Write slice `block[start:stop] = thing` of the block behind a handle. -/
def blockWriteSlice (block : Nat) (start stop : Nat) (thing : Bytes) : PyM Unit := do
  let b ← heapLookup block
  match safeSetSlice b start stop thing with
  | .ok b2 => heapStore block b2
  | .error e => throw e

/-- Read `get_type` of a slot in the block behind a handle. -/
def blockGetType (block : Nat) (pos : Nat) : PyM Nat := do
  let b ← heapLookup block
  liftM (get_type b pos)

/-- Apply `make_invalid` to a slot in the block behind a handle. -/
def blockMakeInvalid (block : Nat) (pos : Nat) : PyM Unit := do
  let b ← heapLookup block
  match make_invalid b pos with
  | .ok b2 => heapStore block b2
  | .error e => throw e

/-- Index `self.subblock_lengths[i]`. -/
def sblGet (i : Nat) : PyM Nat := do
  let s ← get
  match s.subblock_lengths.get? i with
  | some v => pure v
  | none => throw .indexError

/-- Index `self.subblock_lengths[-1]`. -/
def sblLast : PyM Nat := do
  let s ← get
  match s.subblock_lengths.getLast? with
  | some v => pure v
  | none => throw .indexError

/-- Value of `len(self.subblock_lengths) - 1`, the top moddepth. -/
def topModdepth : PyM Nat := do
  let s ← get
  pure (s.subblock_lengths.length - 1)

/-- Source `_allocate_branch`: a zeroed block of `8 + subblock_lengths[-1]`
bytes entered into the arena under a fresh handle. -/
def _allocate_branch : PyM Nat := do
  let last ← sblLast
  let s ← get
  let h := s.next_id
  set { s with
        pointers_to_arrays := updateAssoc s.pointers_to_arrays h (List.replicate (8 + last) 0),
        next_id := s.next_id + 1 }
  pure h

/-- Free-list initialization loop of `_allocate_leaf`: cell `i` points at
cell `i + 1`, the last cell at the 0xFFFF sentinel (the `for i in
range(leaf_units)` loop, expressed as a fold over that range). -/
def initFreeList (units : Nat) (b : Bytes) : Except PyErr Bytes :=
  (List.range units).foldlM
    (fun acc i => do
      let v := if i ≠ units - 1 then i + 1 else 0xFFFF
      safeSetSlice acc (4 + i * 68) (4 + i * 68 + 2) (to_bytes v 2))
    b

/-- Source `_allocate_leaf`: a zeroed block of `4 + leaf_units * 68` bytes
whose cells are chained into the free list, entered under a fresh handle. -/
def _allocate_leaf : PyM Nat := do
  let s ← get
  let base := List.replicate (4 + s.leaf_units * 68) 0
  let leaf ← liftM (initFreeList s.leaf_units base)
  let h := s.next_id
  set { s with
        pointers_to_arrays := updateAssoc s.pointers_to_arrays h leaf,
        next_id := s.next_id + 1 }
  pure h

/-- While-loop of `MerkleSet.__init__`: starting from `[10]`, keep appending
`64 + 2 * last` while the list is no longer than `depth`; since the list
grows by one entry per iteration the loop body runs exactly `depth` times,
written here as a countdown. -/
def initSubblocks (k : Nat) (acc : List Nat) : List Nat :=
  match k with
  | 0 => acc
  | k + 1 => initSubblocks k (acc ++ [64 + 2 * acc.getLastD 0])

/-- Source `MerkleSet.__init__(depth, leaf_units)`. -/
def MerkleSetState.init (depth leaf_units : Nat) : MerkleSetState :=
  { subblock_lengths := initSubblocks depth [10]
    leaf_units := leaf_units
    root := List.replicate 32 0
    pointers_to_arrays := []
    rootblock := none
    next_id := 1 }

/-- Source `_force_calculation_leaf`: recompute the two slots of a leaf cell
bottom-up when they are LAZY and return the node's hash. -/
def _force_calculation_leaf (blake : Bytes → Bytes) (fuel : Nat) (block : Nat) (pos : Nat) :
    PyM Bytes :=
  match fuel with
  | 0 => throw .nonTermination
  | fuel + 1 => do
    let rpos := 4 + pos * 68
    let t0 ← blockGetType block rpos
    if t0 = INVALID then do
      let stored ← blockReadSlice block (rpos + 64) (rpos + 66)
      let child ← oneBased (from_bytes stored)
      let h ← _force_calculation_leaf blake fuel block child
      blockWriteSlice block rpos (rpos + 32) h
    let t1 ← blockGetType block (rpos + 32)
    if t1 = INVALID then do
      let stored ← blockReadSlice block (rpos + 66) (rpos + 68)
      let child ← oneBased (from_bytes stored)
      let h ← _force_calculation_leaf blake fuel block child
      blockWriteSlice block (rpos + 32) (rpos + 64) h
    let pair ← blockReadSlice block rpos (rpos + 64)
    liftM (hasher blake pair)

/-- Source `_force_calculation_branch`: recompute LAZY slots of a branch
top-down, descending through cross-block references at moddepth 0. -/
def _force_calculation_branch (blake : Bytes → Bytes) (fuel : Nat) (block : Nat)
    (pos moddepth : Nat) : PyM Bytes :=
  match fuel with
  | 0 => throw .nonTermination
  | fuel + 1 => do
    if moddepth = 0 then do
      let r ← blockReadSlice block pos (pos + 8)
      let block2? ← mref r
      let stored ← blockReadSlice block (pos + 8) (pos + 10)
      let p := from_bytes stored
      let block2 ← expectSome block2?
      if p = 0xFFFF then do
        let td ← topModdepth
        _force_calculation_branch blake fuel block2 8 td
      else
        _force_calculation_leaf blake fuel block2 p
    else do
      let t0 ← blockGetType block pos
      if t0 = INVALID then do
        let h ← _force_calculation_branch blake fuel block (pos + 64) (moddepth - 1)
        blockWriteSlice block pos (pos + 32) h
      let t1 ← blockGetType block (pos + 32)
      if t1 = INVALID then do
        let sub ← sblGet (moddepth - 1)
        let h ← _force_calculation_branch blake fuel block (pos + 64 + sub) (moddepth - 1)
        blockWriteSlice block (pos + 32) (pos + 64) h
      let pair ← blockReadSlice block pos (pos + 64)
      liftM (hasher blake pair)

/-- Source `MerkleSet.get_root`: force the root slot if it is LAZY and
return it. -/
def get_root (blake : Bytes → Bytes) (fuel : Nat) : PyM Bytes := do
  let s ← get
  let t ← liftM (get_type s.root 0)
  if t = INVALID then do
    let rb ← expectSome s.rootblock
    let td ← topModdepth
    let h ← _force_calculation_branch blake fuel rb 8 td
    modify fun st => { st with root := h }
  let s2 ← get
  pure s2.root

/-- Source `_delete_from_leaf`: free the cell at `pos` and recursively all
its descendants, pushing each onto the leaf's free list. -/
def _delete_from_leaf (fuel : Nat) (leaf : Nat) (pos : Nat) : PyM Unit :=
  match fuel with
  | 0 => throw .nonTermination
  | fuel + 1 => do
    let rpos := 4 + pos * 68
    let t0 ← blockGetType leaf rpos
    if t0 = MIDDLE ∨ t0 = INVALID then do
      let stored ← blockReadSlice leaf (rpos + 64) (rpos + 66)
      let child ← oneBased (from_bytes stored)
      _delete_from_leaf fuel leaf child
    let t1 ← blockGetType leaf (rpos + 32)
    if t1 = MIDDLE ∨ t1 = INVALID then do
      let stored ← blockReadSlice leaf (rpos + 66) (rpos + 68)
      let child ← oneBased (from_bytes stored)
      _delete_from_leaf fuel leaf child
    blockWriteSlice leaf (rpos + 2) (rpos + 68) (List.replicate 66 0)
    let head ← blockReadSlice leaf 0 2
    blockWriteSlice leaf rpos (rpos + 2) head
    blockWriteSlice leaf 0 2 (to_bytes pos 2)

/-- Final writes of `_copy_between_leafs_inner`: copy the 64-byte cell body
and rewrite the child pointers to the freshly copied positions. -/
def copyFinish (fromleaf toleaf : Nat) (rfrompos rtopos topos : Nat)
    (lowpos highpos : Option Nat) : PyM (Nat × Option Nat) := do
  let body ← blockReadSlice fromleaf rfrompos (rfrompos + 64)
  blockWriteSlice toleaf rtopos (rtopos + 64) body
  match lowpos with
  | some lp => blockWriteSlice toleaf (rtopos + 64) (rtopos + 66) (to_bytes (lp + 1) 2)
  | none => pure ()
  match highpos with
  | some hp => blockWriteSlice toleaf (rtopos + 66) (rtopos + 68) (to_bytes (hp + 1) 2)
  | none => pure ()
  pure (DONE, some topos)

mutual

/-- Source `_copy_between_leafs_inner`: copy the subtree rooted at cell
`frompos` of `fromleaf` into fresh cells of `toleaf`, undoing partial work
and restoring the free list when the target fills up. -/
def _copy_between_leafs_inner (fuel : Nat) (fromleaf toleaf : Nat) (frompos : Nat) :
    PyM (Nat × Option Nat) :=
  match fuel with
  | 0 => throw .nonTermination
  | fuel + 1 => do
    let head ← blockReadSlice toleaf 0 2
    let topos := from_bytes head
    if topos = 0xFFFF then pure (FULL, none)
    else do
      let rfrompos := 4 + frompos * 68
      let rtopos := 4 + topos * 68
      let nxt ← blockReadSlice toleaf rtopos (rtopos + 2)
      blockWriteSlice toleaf 0 2 nxt
      let t0 ← blockGetType fromleaf rfrompos
      let lowres ←
        (if t0 = MIDDLE ∨ t0 = INVALID then do
          let stored ← blockReadSlice fromleaf (rfrompos + 64) (rfrompos + 66)
          let child ← oneBased (from_bytes stored)
          let (r, lowpos) ← _copy_between_leafs_inner fuel fromleaf toleaf child
          pure (some (r, lowpos))
        else pure none)
      match lowres with
      | some (r, _) =>
        if r = FULL then do
          let h2 ← blockReadSlice toleaf 0 2
          let cell2 ← blockReadSlice toleaf rtopos (rtopos + 2)
          if h2 ≠ cell2 then throw .assertionError
          blockWriteSlice toleaf 0 2 (to_bytes topos 2)
          pure (FULL, none)
        else copyHigh fuel fromleaf toleaf rfrompos rtopos topos t0 (lowres.bind Prod.snd)
      | none => copyHigh fuel fromleaf toleaf rfrompos rtopos topos t0 none
termination_by 2 * fuel

/-- Continuation of `_copy_between_leafs_inner` after the low child: handle
the high child and fill in the copied cell (the tail of the source function,
split out so the translated control flow stays readable). -/
def copyHigh (fuel : Nat) (fromleaf toleaf : Nat) (rfrompos rtopos topos t0 : Nat)
    (lowpos : Option Nat) : PyM (Nat × Option Nat) := do
  let t1 ← blockGetType fromleaf (rfrompos + 32)
  let highres ←
    (if t1 = MIDDLE ∨ t1 = INVALID then do
      let stored ← blockReadSlice fromleaf (rfrompos + 66) (rfrompos + 68)
      let child ← oneBased (from_bytes stored)
      let (r, highpos) ← _copy_between_leafs_inner fuel fromleaf toleaf child
      pure (some (r, highpos))
    else pure none)
  match highres with
  | some (r, highpos) =>
    if r = FULL then do
      if t0 = MIDDLE ∨ t0 = INVALID then do
        let lp ← expectPos lowpos
        _delete_from_leaf fuel toleaf lp
      let h2 ← blockReadSlice toleaf 0 2
      let cell2 ← blockReadSlice toleaf rtopos (rtopos + 2)
      if h2 ≠ cell2 then throw .assertionError
      blockWriteSlice toleaf 0 2 (to_bytes topos 2)
      pure (FULL, none)
    else copyFinish fromleaf toleaf rfrompos rtopos topos lowpos highpos
  | none => copyFinish fromleaf toleaf rfrompos rtopos topos lowpos none
termination_by 2 * fuel + 1

end

/-- Source `_copy_between_leafs`: the inner copy plus the `num_inputs`
transfer from the old host leaf to the new one. -/
def _copy_between_leafs (fuel : Nat) (fromleaf toleaf : Nat) (frompos : Nat) :
    PyM (Nat × Option Nat) := do
  let (r, pos) ← _copy_between_leafs_inner fuel fromleaf toleaf frompos
  if r = DONE then do
    let c ← blockReadSlice toleaf 2 4
    blockWriteSlice toleaf 2 4 (to_bytes (from_bytes c + 1) 2)
    let c2 ← blockReadSlice fromleaf 2 4
    blockWriteSlice fromleaf 2 4 (to_bytes (from_bytes c2 - 1) 2)
  pure (r, pos)

/-- Source `_copy_leaf_to_branch`: mirror-copy a leaf subtree into the
inline slots of a fresh branch, spilling moddepth-0 sections into the
branch's active leaf. -/
def _copy_leaf_to_branch (fuel : Nat) (branch : Nat) (branchpos moddepth : Nat)
    (leaf : Nat) (leafpos : Nat) : PyM Unit :=
  match fuel with
  | 0 => throw .nonTermination
  | fuel + 1 => do
    let rleafpos := 4 + leafpos * 68
    if moddepth = 0 then do
      let aref ← blockReadSlice branch 0 8
      let active? ← mref aref
      let active ←
        (match active? with
        | some a => pure a
        | none => do
          let a ← _allocate_leaf
          blockWriteSlice branch 0 8 (mderef a)
          pure a)
      let (r, newpos) ← _copy_between_leafs_inner fuel leaf active leafpos
      if r ≠ DONE then throw .assertionError
      let c ← blockReadSlice active 2 4
      blockWriteSlice active 2 4 (to_bytes (from_bytes c + 1) 2)
      blockWriteSlice branch branchpos (branchpos + 8) (mderef active)
      let np ← expectPos newpos
      blockWriteSlice branch (branchpos + 8) (branchpos + 10) (to_bytes np 2)
    else do
      let body ← blockReadSlice leaf rleafpos (rleafpos + 64)
      blockWriteSlice branch branchpos (branchpos + 64) body
      let t0 ← blockGetType leaf rleafpos
      if t0 = MIDDLE ∨ t0 = INVALID then do
        let stored ← blockReadSlice leaf (rleafpos + 64) (rleafpos + 66)
        let child ← oneBased (from_bytes stored)
        _copy_leaf_to_branch fuel branch (branchpos + 64) (moddepth - 1) leaf child
      let t1 ← blockGetType leaf (rleafpos + 32)
      if t1 = MIDDLE ∨ t1 = INVALID then do
        let sub ← sblGet (moddepth - 1)
        let stored ← blockReadSlice leaf (rleafpos + 66) (rleafpos + 68)
        let child ← oneBased (from_bytes stored)
        _copy_leaf_to_branch fuel branch (branchpos + 64 + sub) (moddepth - 1) leaf child

/-- Source `_insert_leaf`: allocate cells of a leaf block for two or three
sorted values that belong below one node, returning FULL (and restoring the
free list) when the block runs out of cells. -/
def _insert_leaf (fuel : Nat) (things : List Bytes) (leaf : Nat) (depth : Nat) :
    PyM (Nat × Option Nat) :=
  match fuel with
  | 0 => throw .nonTermination
  | fuel + 1 => do
    if ¬ (2 ≤ things.length ∧ things.length ≤ 3) then throw .assertionError
    if things.any (fun t => t.length ≠ 32) then throw .assertionError
    let head ← blockReadSlice leaf 0 2
    let pos := from_bytes head
    if pos = 0xFFFF then pure (FULL, none)
    else do
      let lpos := pos * 68 + 4
      let nxt ← blockReadSlice leaf lpos (lpos + 2)
      blockWriteSlice leaf 0 2 nxt
      let things2 := sortBytesList things
      match things2 with
      | [a, b] => do
        blockWriteSlice leaf lpos (lpos + 32) a
        blockWriteSlice leaf (lpos + 32) (lpos + 64) b
        pure (INVALIDATING, some pos)
      | [a, b, c] => do
        let b0 ← liftM (get_bit a depth)
        let b1 ← liftM (get_bit b depth)
        let b2 ← liftM (get_bit c depth)
        if b0 = b1 ∧ b1 = b2 then do
          let (r, laterpos) ← _insert_leaf fuel things2 leaf (depth + 1)
          if r = FULL then do
            blockWriteSlice leaf 0 2 (to_bytes pos 2)
            pure (FULL, none)
          else do
            let lp ← expectPos laterpos
            if b0 = 0 then do
              blockWriteSlice leaf (lpos + 64) (lpos + 66) (to_bytes (lp + 1) 2)
              blockMakeInvalid leaf lpos
            else do
              blockWriteSlice leaf (lpos + 66) (lpos + 68) (to_bytes (lp + 1) 2)
              blockMakeInvalid leaf (lpos + 32)
              blockWriteSlice leaf lpos (lpos + 2) (List.replicate 2 0)
            pure (INVALIDATING, some pos)
        else if b0 = b1 then do
          let (r, laterpos) ← _insert_leaf fuel [a, b] leaf (depth + 1)
          if r = FULL then do
            blockWriteSlice leaf 0 2 (to_bytes pos 2)
            pure (FULL, none)
          else do
            let lp ← expectPos laterpos
            blockWriteSlice leaf (lpos + 32) (lpos + 64) c
            blockWriteSlice leaf (lpos + 64) (lpos + 66) (to_bytes (lp + 1) 2)
            blockMakeInvalid leaf lpos
            pure (INVALIDATING, some pos)
        else do
          let (r, laterpos) ← _insert_leaf fuel [b, c] leaf (depth + 1)
          if r = FULL then do
            blockWriteSlice leaf 0 2 (to_bytes pos 2)
            pure (FULL, none)
          else do
            let lp ← expectPos laterpos
            blockWriteSlice leaf lpos (lpos + 32) a
            blockWriteSlice leaf (lpos + 66) (lpos + 68) (to_bytes (lp + 1) 2)
            blockMakeInvalid leaf (lpos + 32)
            pure (INVALIDATING, some pos)
      | _ => throw .assertionError

mutual

/-- Source `_add_to_branch`: enter a branch block at its top node. -/
def _add_to_branch (fuel : Nat) (toadd : Bytes) (block : Nat) (depth : Nat) : PyM Nat :=
  match fuel with
  | 0 => throw .nonTermination
  | fuel + 1 => do
    let td ← topModdepth
    _add_to_branch_inner fuel toadd block 8 depth td
termination_by fuel

/-- Source `_add_to_branch_inner`: descend the inline balanced subtree of a
branch block by the key's bits, returning NOTSTARTED, INVALIDATING or DONE. -/
def _add_to_branch_inner (fuel : Nat) (toadd : Bytes) (block : Nat) (pos depth moddepth : Nat) :
    PyM Nat :=
  match fuel with
  | 0 => throw .nonTermination
  | fuel + 1 => do
    if moddepth = 0 then do
      let r ← blockReadSlice block pos (pos + 8)
      let nextblock? ← mref r
      match nextblock? with
      | none => pure NOTSTARTED
      | some nextblock => do
        let stored ← blockReadSlice block (pos + 8) (pos + 10)
        let nextpos := from_bytes stored
        if nextpos = 0xFFFF then
          _add_to_branch fuel toadd nextblock depth
        else
          _add_to_leaf fuel toadd block pos nextblock nextpos depth
    else do
      let bit ← liftM (get_bit toadd depth)
      if bit = 0 then do
        let r ← _add_to_branch_inner fuel toadd block (pos + 64) (depth + 1) (moddepth - 1)
        if r = INVALIDATING then do
          let t ← blockGetType block pos
          if t ≠ INVALID then do
            blockMakeInvalid block pos
            let t1 ← blockGetType block (pos + 32)
            if t1 ≠ INVALID then pure INVALIDATING else pure DONE
          else pure DONE
        else if r = DONE then pure DONE
        else do
          let t0 ← blockGetType block pos
          let t1 ← blockGetType block (pos + 32)
          if t0 = EMPTY then do
            if t1 = EMPTY then pure NOTSTARTED
            else do
              blockWriteSlice block pos (pos + 32) toadd
              if t1 ≠ INVALID then pure INVALIDATING else pure DONE
          else do
            if t0 ≠ TERMINAL then throw .assertionError
            let v0 ← blockReadSlice block pos (pos + 32)
            if v0 = toadd then pure DONE
            else if t1 = TERMINAL then do
              let v1 ← blockReadSlice block (pos + 32) (pos + 64)
              if v1 = toadd then pure DONE
              else do
                blockWriteSlice block (pos + 32) (pos + 64) (List.replicate 32 0)
                _insert_branch fuel [toadd, v0, v1] block pos depth moddepth
                if t1 ≠ INVALID then pure INVALIDATING else pure DONE
            else do
              _insert_branch fuel [toadd, v0] block (pos + 64) (depth + 1) (moddepth - 1)
              blockMakeInvalid block pos
              if t1 ≠ INVALID then pure INVALIDATING else pure DONE
      else do
        let sub ← sblGet (moddepth - 1)
        let r ← _add_to_branch_inner fuel toadd block (pos + 64 + sub) (depth + 1) (moddepth - 1)
        if r = INVALIDATING then do
          let t ← blockGetType block (pos + 32)
          if t ≠ INVALID then do
            blockMakeInvalid block (pos + 32)
            let t0 ← blockGetType block pos
            if t0 ≠ INVALID then pure INVALIDATING else pure DONE
          else pure DONE
        else if r = DONE then pure DONE
        else do
          let t0 ← blockGetType block pos
          let t1 ← blockGetType block (pos + 32)
          if t1 = EMPTY then do
            if t0 = EMPTY then pure NOTSTARTED
            else do
              blockWriteSlice block (pos + 32) (pos + 64) toadd
              if t0 ≠ INVALID then pure INVALIDATING else pure DONE
          else do
            if t1 ≠ TERMINAL then throw .assertionError
            let v1 ← blockReadSlice block (pos + 32) (pos + 64)
            if v1 = toadd then pure DONE
            else if t0 = TERMINAL then do
              let v0 ← blockReadSlice block pos (pos + 32)
              if v0 = toadd then pure DONE
              else do
                blockWriteSlice block pos (pos + 32) (List.replicate 32 0)
                _insert_branch fuel [toadd, v0, v1] block pos depth moddepth
                if t0 ≠ INVALID then pure INVALIDATING else pure DONE
            else do
              _insert_branch fuel [toadd, v1] block (pos + 64 + sub) (depth + 1) (moddepth - 1)
              blockMakeInvalid block (pos + 32)
              if t0 ≠ INVALID then pure INVALIDATING else pure DONE
termination_by fuel

/-- Source `_insert_branch`: place two or three values below one node of a
branch block, spilling into the active leaf (or a fresh leaf, or a fresh
branch) at moddepth 0. -/
def _insert_branch (fuel : Nat) (things : List Bytes) (block : Nat) (pos depth moddepth : Nat) :
    PyM Unit :=
  match fuel with
  | 0 => throw .nonTermination
  | fuel + 1 => do
    if ¬ (2 ≤ things.length ∧ things.length ≤ 3) then throw .assertionError
    if moddepth = 0 then do
      let aref ← blockReadSlice block 0 8
      let child? ← mref aref
      let first ←
        (match child? with
        | some child => do
          let rl ← _insert_leaf fuel things child depth
          pure (some (child, rl))
        | none => pure none)
      match first with
      | some (child, (r, leafpos)) =>
        if r = FULL then
          insertBranchFullCase fuel things block pos depth
        else do
          let c ← blockReadSlice child 2 4
          blockWriteSlice child 2 4 (to_bytes (from_bytes c + 1) 2)
          blockWriteSlice block pos (pos + 8) (mderef child)
          let lp ← expectPos leafpos
          blockWriteSlice block (pos + 8) (pos + 10) (to_bytes lp 2)
      | none => insertBranchFullCase fuel things block pos depth
    else do
      let things2 := sortBytesList things
      match things2 with
      | [a, b] => do
        blockWriteSlice block pos (pos + 32) a
        blockWriteSlice block (pos + 32) (pos + 64) b
      | [a, b, c] => do
        let b0 ← liftM (get_bit a depth)
        let b1 ← liftM (get_bit b depth)
        let b2 ← liftM (get_bit c depth)
        if b0 = b1 ∧ b1 = b2 then
          if b0 = 0 then do
            _insert_branch fuel things2 block (pos + 64) (depth + 1) (moddepth - 1)
            blockMakeInvalid block pos
          else do
            let sub ← sblGet (moddepth - 1)
            _insert_branch fuel things2 block (pos + 64 + sub) (depth + 1) (moddepth - 1)
            blockMakeInvalid block (pos + 32)
        else if b0 = b1 then do
          blockWriteSlice block (pos + 32) (pos + 64) c
          _insert_branch fuel [a, b] block (pos + 64) (depth + 1) (moddepth - 1)
          blockMakeInvalid block pos
        else do
          blockWriteSlice block pos (pos + 32) a
          let sub ← sblGet (moddepth - 1)
          _insert_branch fuel [b, c] block (pos + 64 + sub) (depth + 1) (moddepth - 1)
          blockMakeInvalid block (pos + 32)
      | _ => throw .assertionError
termination_by fuel

/-- The `r == FULL` arm of `_insert_branch` at moddepth 0: try a freshly
allocated leaf, and if even that is FULL allocate a sub-branch instead. -/
def insertBranchFullCase (fuel : Nat) (things : List Bytes) (block : Nat) (pos depth : Nat) :
    PyM Unit :=
  match fuel with
  | 0 => throw .nonTermination
  | fuel + 1 => do
    let child ← _allocate_leaf
    let (r, leafpos) ← _insert_leaf fuel things child depth
    if r = FULL then do
      mdeallocate child
      let newb ← _allocate_branch
      blockWriteSlice block pos (pos + 8) (mderef newb)
      blockWriteSlice block (pos + 8) (pos + 10) (to_bytes 0xFFFF 2)
      let td ← topModdepth
      _insert_branch fuel things newb 8 depth td
    else do
      blockWriteSlice block 0 8 (mderef child)
      let c ← blockReadSlice child 2 4
      blockWriteSlice child 2 4 (to_bytes (from_bytes c + 1) 2)
      blockWriteSlice block pos (pos + 8) (mderef child)
      let lp ← expectPos leafpos
      blockWriteSlice block (pos + 8) (pos + 10) (to_bytes lp 2)
termination_by fuel

/-- Source `_add_to_leaf`: insert into a leaf section, migrating the section
to the active leaf or promoting the whole leaf to a branch when FULL. -/
def _add_to_leaf (fuel : Nat) (toadd : Bytes) (branch : Nat) (branchpos : Nat)
    (leaf : Nat) (leafpos : Nat) (depth : Nat) : PyM Nat :=
  match fuel with
  | 0 => throw .nonTermination
  | fuel + 1 => do
    let r ← _add_to_leaf_inner fuel toadd leaf leafpos depth
    if r ≠ FULL then pure r
    else do
      let c ← blockReadSlice leaf 2 4
      if from_bytes c = 1 then do
        let newb ← _allocate_branch
        let td ← topModdepth
        _copy_leaf_to_branch fuel newb 8 td leaf leafpos
        let _ ← _add_to_branch fuel toadd newb depth
        blockWriteSlice branch branchpos (branchpos + 8) (mderef newb)
        blockWriteSlice branch (branchpos + 8) (branchpos + 10) (to_bytes 0xFFFF 2)
        let aref ← blockReadSlice branch 0 8
        if aref = mderef leaf then
          blockWriteSlice branch 0 8 (List.replicate 8 0)
        mdeallocate leaf
        pure INVALIDATING
      else do
        let aref ← blockReadSlice branch 0 8
        let active0? ← mref aref
        let active1 ←
          (match active0? with
          | none => _allocate_leaf
          | some a => if a = leaf then _allocate_leaf else pure a)
        let (r1, newpos1) ← _copy_between_leafs fuel leaf active1 leafpos
        let (active, newpos) ←
          (if r1 ≠ DONE then do
            let active2 ← _allocate_leaf
            let (r2, newpos2) ← _copy_between_leafs fuel leaf active2 leafpos
            if r2 ≠ DONE then throw .assertionError
            pure (active2, newpos2)
          else pure (active1, newpos1))
        blockWriteSlice branch branchpos (branchpos + 8) (mderef active)
        let aref2 ← blockReadSlice branch 0 8
        if aref2 ≠ mderef active then
          blockWriteSlice branch 0 8 (mderef active)
        let np ← expectPos newpos
        blockWriteSlice branch (branchpos + 8) (branchpos + 10) (to_bytes np 2)
        _delete_from_leaf fuel leaf leafpos
        _add_to_leaf fuel toadd branch branchpos active np depth
termination_by fuel

/-- Source `_add_to_leaf_inner`: the leaf-block mirror of
`_add_to_branch_inner`, walking one-based cell pointers. -/
def _add_to_leaf_inner (fuel : Nat) (toadd : Bytes) (leaf : Nat) (pos depth : Nat) : PyM Nat :=
  match fuel with
  | 0 => throw .nonTermination
  | fuel + 1 => do
    let rpos := pos * 68 + 4
    let bit ← liftM (get_bit toadd depth)
    if bit = 0 then do
      let t ← blockGetType leaf rpos
      if t = EMPTY then do
        blockWriteSlice leaf rpos (rpos + 32) toadd
        pure INVALIDATING
      else if t = TERMINAL then do
        let oldval0 ← blockReadSlice leaf rpos (rpos + 32)
        if oldval0 = toadd then pure DONE
        else do
          let t1 ← blockGetType leaf (rpos + 32)
          if t1 = TERMINAL then do
            let oldval1 ← blockReadSlice leaf (rpos + 32) (rpos + 64)
            if toadd = oldval1 then pure DONE
            else do
              let head ← blockReadSlice leaf 0 2
              let nextpos := from_bytes head
              blockWriteSlice leaf 0 2 (to_bytes pos 2)
              blockWriteSlice leaf rpos (rpos + 64) (List.replicate 64 0)
              blockWriteSlice leaf rpos (rpos + 2) (to_bytes nextpos 2)
              let (r, nextnextpos) ← _insert_leaf fuel [toadd, oldval0, oldval1] leaf depth
              if r = FULL then do
                blockWriteSlice leaf 0 2 (to_bytes nextpos 2)
                blockWriteSlice leaf rpos (rpos + 32) oldval0
                blockWriteSlice leaf (rpos + 32) (rpos + 64) oldval1
                pure FULL
              else do
                let np ← expectPos nextnextpos
                if np ≠ pos then throw .assertionError
                pure INVALIDATING
          else do
            let (r, newpos) ← _insert_leaf fuel [toadd, oldval0] leaf (depth + 1)
            if r = FULL then pure FULL
            else do
              let np ← expectPos newpos
              blockWriteSlice leaf (rpos + 64) (rpos + 66) (to_bytes (np + 1) 2)
              blockMakeInvalid leaf rpos
              let t1b ← blockGetType leaf (rpos + 32)
              if t1b = INVALID then pure DONE else pure INVALIDATING
      else do
        let stored ← blockReadSlice leaf (rpos + 64) (rpos + 66)
        let child ← oneBased (from_bytes stored)
        let r ← _add_to_leaf_inner fuel toadd leaf child (depth + 1)
        if r = INVALIDATING then do
          if t = MIDDLE then do
            blockMakeInvalid leaf rpos
            pure INVALIDATING
          else pure DONE
        else pure r
    else do
      let t ← blockGetType leaf (rpos + 32)
      if t = EMPTY then do
        blockWriteSlice leaf (rpos + 32) (rpos + 64) toadd
        pure INVALIDATING
      else if t = TERMINAL then do
        let oldval1 ← blockReadSlice leaf (rpos + 32) (rpos + 64)
        if oldval1 = toadd then pure DONE
        else do
          let t0 ← blockGetType leaf rpos
          if t0 = TERMINAL then do
            let oldval0 ← blockReadSlice leaf rpos (rpos + 32)
            if toadd = oldval0 then pure DONE
            else do
              let head ← blockReadSlice leaf 0 2
              let nextpos := from_bytes head
              blockWriteSlice leaf 0 2 (to_bytes pos 2)
              blockWriteSlice leaf rpos (rpos + 64) (List.replicate 64 0)
              blockWriteSlice leaf rpos (rpos + 2) (to_bytes nextpos 2)
              let (r, nextnextpos) ← _insert_leaf fuel [toadd, oldval0, oldval1] leaf depth
              if r = FULL then do
                blockWriteSlice leaf 0 2 (to_bytes nextpos 2)
                blockWriteSlice leaf rpos (rpos + 32) oldval0
                blockWriteSlice leaf (rpos + 32) (rpos + 64) oldval1
                pure FULL
              else do
                let np ← expectPos nextnextpos
                if np ≠ pos then throw .assertionError
                pure INVALIDATING
          else do
            let (r, newpos) ← _insert_leaf fuel [toadd, oldval1] leaf (depth + 1)
            if r = FULL then pure FULL
            else do
              let np ← expectPos newpos
              blockWriteSlice leaf (rpos + 66) (rpos + 68) (to_bytes (np + 1) 2)
              blockMakeInvalid leaf (rpos + 32)
              let t0b ← blockGetType leaf rpos
              if t0b = INVALID then pure DONE else pure INVALIDATING
      else do
        let stored ← blockReadSlice leaf (rpos + 66) (rpos + 68)
        let child ← oneBased (from_bytes stored)
        let r ← _add_to_leaf_inner fuel toadd leaf child (depth + 1)
        if r = INVALIDATING then do
          if t = MIDDLE then do
            blockMakeInvalid leaf (rpos + 32)
            pure INVALIDATING
          else pure DONE
        else pure r
termination_by fuel

end

/-- Source `_add`: the top-level insertion of an already-flipped TERMINAL
value, handling the EMPTY and TERMINAL root slot cases inline. -/
def _add (fuel : Nat) (toadd : Bytes) : PyM Unit := do
  let s ← get
  let t ← liftM (get_type s.root 0)
  if t = EMPTY then
    modify fun st => { st with root := toadd }
  else if t = TERMINAL then do
    if toadd = s.root then pure ()
    else do
      let rb ← _allocate_branch
      modify fun st => { st with rootblock := some rb }
      let s2 ← get
      let td ← topModdepth
      _insert_branch fuel [s2.root, toadd] rb 8 0 td
      let s3 ← get
      let newroot ← liftM (make_invalid s3.root 0)
      modify fun st => { st with root := newroot }
  else do
    let rb ← expectSome s.rootblock
    let r ← _add_to_branch fuel toadd rb 0
    if r = INVALIDATING then do
      let s2 ← get
      let t2 ← liftM (get_type s2.root 0)
      if t2 ≠ INVALID then do
        let newroot ← liftM (make_invalid s2.root 0)
        modify fun st => { st with root := newroot }

/-- Source `add_already_hashed`. -/
def add_already_hashed (fuel : Nat) (toadd : Bytes) : PyM Unit := do
  let ft ← liftM (flip_terminal toadd)
  _add fuel ft

/-- Source `add`: hash the raw bytes with sha256 first. -/
def addOp (sha : Bytes → Bytes) (fuel : Nat) (toadd : Bytes) : PyM Unit :=
  add_already_hashed fuel (sha toadd)

/-- Python `None` flowing where a 32/64-byte value is required. -/
def expectBytes : Option Bytes → PyM Bytes
  | some v => pure v
  | none => throw .typeError

/-- Source `_deallocate_leaf_node`: push a single cell back on the free
list. -/
def _deallocate_leaf_node (leaf : Nat) (pos : Nat) : PyM Unit := do
  let rpos := 4 + pos * 68
  let head ← blockReadSlice leaf 0 2
  blockWriteSlice leaf rpos (rpos + 2) head
  blockWriteSlice leaf (rpos + 2) (rpos + 68) (List.replicate 66 0)
  blockWriteSlice leaf 0 2 (to_bytes pos 2)

/-- Source `_collapse_leaf_inner`: return the 64-byte two-terminal blob when
the subtree below this cell holds exactly two terminals (possibly deeper,
through empty siblings), freeing each visited cell on success. -/
def _collapse_leaf_inner (fuel : Nat) (leaf : Nat) (pos : Nat) : PyM (Option Bytes) :=
  match fuel with
  | 0 => throw .nonTermination
  | fuel + 1 => do
    let rpos := 4 + pos * 68
    let t0 ← blockGetType leaf rpos
    let t1 ← blockGetType leaf (rpos + 32)
    let r ←
      (if t0 = TERMINAL ∧ t1 = TERMINAL then do
        let blob ← blockReadSlice leaf rpos (rpos + 64)
        pure (some blob)
      else if t0 = EMPTY then do
        let stored ← blockReadSlice leaf (rpos + 66) (rpos + 68)
        let child ← oneBased (from_bytes stored)
        _collapse_leaf_inner fuel leaf child
      else if t1 = EMPTY then do
        let stored ← blockReadSlice leaf (rpos + 64) (rpos + 66)
        let child ← oneBased (from_bytes stored)
        _collapse_leaf_inner fuel leaf child
      else pure none)
    match r with
    | some blob => do
      blockWriteSlice leaf (rpos + 2) (rpos + 68) (List.replicate 66 0)
      let head ← blockReadSlice leaf 0 2
      blockWriteSlice leaf rpos (rpos + 2) head
      blockWriteSlice leaf 0 2 (to_bytes pos 2)
      pure (some blob)
    | none => pure none

/-- Source `_catch_leaf`: at a fragile cell with one empty slot, try to
collapse the non-empty side and install the two-terminal blob in place. -/
def _catch_leaf (fuel : Nat) (leaf : Nat) (pos : Nat) : PyM Unit := do
  let rpos := 4 + pos * 68
  let t0 ← blockGetType leaf rpos
  let t1 ← blockGetType leaf (rpos + 32)
  if t0 = EMPTY then do
    let stored ← blockReadSlice leaf (rpos + 66) (rpos + 68)
    let child ← oneBased (from_bytes stored)
    let r ← _collapse_leaf_inner fuel leaf child
    match r with
    | some blob => do
      blockWriteSlice leaf (rpos + 66) (rpos + 68) (List.replicate 2 0)
      blockWriteSlice leaf rpos (rpos + 64) blob
    | none => pure ()
  else if t1 = EMPTY then do
    let stored ← blockReadSlice leaf (rpos + 64) (rpos + 66)
    let child ← oneBased (from_bytes stored)
    let r ← _collapse_leaf_inner fuel leaf child
    match r with
    | some blob => do
      blockWriteSlice leaf (rpos + 64) (rpos + 66) (List.replicate 2 0)
      blockWriteSlice leaf rpos (rpos + 64) blob
    | none => pure ()

/-- Source `_collapse_leaf`: the inner collapse plus reference-count upkeep
(freeing the leaf and clearing the branch's active pointer at zero). -/
def _collapse_leaf (fuel : Nat) (leaf : Nat) (pos : Nat) (branch : Nat) :
    PyM (Option Bytes) := do
  let r ← _collapse_leaf_inner fuel leaf pos
  match r with
  | some blob => do
    let c ← blockReadSlice leaf 2 4
    let inputs := from_bytes c
    if inputs = 1 then do
      mdeallocate leaf
      let aref ← blockReadSlice branch 0 8
      if aref = mderef leaf then
        blockWriteSlice branch 0 8 (List.replicate 8 0)
      pure (some blob)
    else do
      blockWriteSlice leaf 2 4 (to_bytes (inputs - 1) 2)
      pure (some blob)
  | none => pure none

mutual

/-- Source `_collapse_branch`: collapse a whole branch block, deallocating
it on success. -/
def _collapse_branch (fuel : Nat) (block : Nat) : PyM (Option Bytes) :=
  match fuel with
  | 0 => throw .nonTermination
  | fuel + 1 => do
    let td ← topModdepth
    let r ← _collapse_branch_inner fuel block 8 td
    if r.isSome then
      mdeallocate block
    pure r
termination_by fuel

/-- Source `_collapse_branch_inner`: the branch-block mirror of
`_collapse_leaf_inner`, descending through cross-block references. -/
def _collapse_branch_inner (fuel : Nat) (block : Nat) (pos moddepth : Nat) :
    PyM (Option Bytes) :=
  match fuel with
  | 0 => throw .nonTermination
  | fuel + 1 => do
    if moddepth = 0 then do
      let stored ← blockReadSlice block (pos + 8) (pos + 10)
      let leafpos := from_bytes stored
      let bref ← blockReadSlice block pos (pos + 8)
      let sub? ← mref bref
      let sub ← expectSome sub?
      let r ←
        (if leafpos = 0xFFFF then
          _collapse_branch fuel sub
        else
          _collapse_leaf fuel sub leafpos block)
      if r.isSome then
        blockWriteSlice block pos (pos + 10) (List.replicate 10 0)
      pure r
    else do
      let t0 ← blockGetType block pos
      let t1 ← blockGetType block (pos + 32)
      if t0 = TERMINAL ∧ t1 = TERMINAL then do
        let blob ← blockReadSlice block pos (pos + 64)
        blockWriteSlice block pos (pos + 64) (List.replicate 64 0)
        pure (some blob)
      else if t0 = EMPTY then do
        let sub ← sblGet (moddepth - 1)
        let r ← _collapse_branch_inner fuel block (pos + 64 + sub) (moddepth - 1)
        if r.isSome then
          blockWriteSlice block (pos + 32) (pos + 64) (List.replicate 32 0)
        pure r
      else if t1 = EMPTY then do
        let r ← _collapse_branch_inner fuel block (pos + 64) (moddepth - 1)
        if r.isSome then
          blockWriteSlice block pos (pos + 32) (List.replicate 32 0)
        pure r
      else pure none
termination_by fuel

end

/-- Source `_catch_branch`: the branch-block mirror of `_catch_leaf`,
descending through cross-block references at moddepth 0. -/
def _catch_branch (fuel : Nat) (block : Nat) (pos moddepth : Nat) : PyM Unit :=
  match fuel with
  | 0 => throw .nonTermination
  | fuel + 1 => do
    if moddepth = 0 then do
      let stored ← blockReadSlice block (pos + 8) (pos + 10)
      let leafpos := from_bytes stored
      let bref ← blockReadSlice block pos (pos + 8)
      let sub? ← mref bref
      let sub ← expectSome sub?
      if leafpos = 0xFFFF then do
        let td ← topModdepth
        _catch_branch fuel sub 8 td
      else
        _catch_leaf fuel sub leafpos
    else do
      let t0 ← blockGetType block pos
      if t0 = EMPTY then do
        let t1 ← blockGetType block (pos + 32)
        if t1 = TERMINAL then throw .assertionError
        let sub ← sblGet (moddepth - 1)
        let r ← _collapse_branch_inner fuel block (pos + 64 + sub) (moddepth - 1)
        match r with
        | some blob => blockWriteSlice block pos (pos + 64) blob
        | none => pure ()
      else do
        let t1 ← blockGetType block (pos + 32)
        if t1 = EMPTY then do
          if t0 = TERMINAL then throw .assertionError
          let r ← _collapse_branch_inner fuel block (pos + 64) (moddepth - 1)
          match r with
          | some blob => blockWriteSlice block pos (pos + 64) blob
          | none => pure ()

/-- Source `_remove_leaf_inner`: remove a value below a leaf cell, driving
the ONELEFT / FRAGILE / INVALIDATING / DONE protocol. -/
def _remove_leaf_inner (fuel : Nat) (toremove : Bytes) (block : Nat) (pos depth : Nat) :
    PyM (Nat × Option Bytes) :=
  match fuel with
  | 0 => throw .nonTermination
  | fuel + 1 => do
    let rpos := 4 + pos * 68
    let bit ← liftM (get_bit toremove depth)
    if bit = 0 then do
      let t ← blockGetType block rpos
      if t = EMPTY then pure (DONE, none)
      else if t = TERMINAL then do
        let t1 ← blockGetType block (rpos + 32)
        let v0 ← blockReadSlice block rpos (rpos + 32)
        if v0 = toremove then
          if t1 = TERMINAL then do
            let left ← blockReadSlice block (rpos + 32) (rpos + 64)
            _deallocate_leaf_node block pos
            pure (ONELEFT, some left)
          else do
            blockWriteSlice block rpos (rpos + 32) (List.replicate 32 0)
            pure (FRAGILE, none)
        else do
          let v1 ← blockReadSlice block (rpos + 32) (rpos + 64)
          if v1 = toremove then do
            let left ← blockReadSlice block rpos (rpos + 32)
            _deallocate_leaf_node block pos
            pure (ONELEFT, some left)
          else pure (DONE, none)
      else do
        let stored ← blockReadSlice block (rpos + 64) (rpos + 66)
        let child ← oneBased (from_bytes stored)
        let (r, val) ← _remove_leaf_inner fuel toremove block child (depth + 1)
        if r = DONE then pure (DONE, none)
        else if r = INVALIDATING then do
          if t = MIDDLE then do
            blockMakeInvalid block rpos
            let t1 ← blockGetType block (rpos + 32)
            if t1 ≠ INVALID then pure (INVALIDATING, none) else pure (DONE, none)
          else pure (DONE, none)
        else if r = ONELEFT then do
          let t1 ← blockGetType block (rpos + 32)
          if t1 = EMPTY then throw .assertionError
          let v ← expectBytes val
          blockWriteSlice block rpos (rpos + 32) v
          blockWriteSlice block (rpos + 64) (rpos + 66) (List.replicate 2 0)
          if t1 = TERMINAL then pure (FRAGILE, none)
          else if t ≠ INVALID ∧ t1 ≠ INVALID then pure (INVALIDATING, none)
          else pure (DONE, none)
        else do
          if r ≠ FRAGILE then throw .assertionError
          let t1 ← blockGetType block (rpos + 32)
          if t1 = EMPTY then do
            if t ≠ INVALID then blockMakeInvalid block rpos
            pure (FRAGILE, none)
          else do
            let stored2 ← blockReadSlice block (rpos + 64) (rpos + 66)
            let child2 ← oneBased (from_bytes stored2)
            _catch_leaf fuel block child2
            if t = INVALID then pure (DONE, none)
            else do
              blockMakeInvalid block rpos
              if t1 = INVALID then pure (DONE, none)
              else pure (INVALIDATING, none)
    else do
      let t ← blockGetType block (rpos + 32)
      if t = EMPTY then pure (DONE, none)
      else if t = TERMINAL then do
        let t0 ← blockGetType block rpos
        let v1 ← blockReadSlice block (rpos + 32) (rpos + 64)
        if v1 = toremove then
          if t0 = TERMINAL then do
            let left ← blockReadSlice block rpos (rpos + 32)
            _deallocate_leaf_node block pos
            pure (ONELEFT, some left)
          else do
            blockWriteSlice block (rpos + 32) (rpos + 64) (List.replicate 32 0)
            pure (FRAGILE, none)
        else do
          let v0 ← blockReadSlice block rpos (rpos + 32)
          if v0 = toremove then do
            let left ← blockReadSlice block (rpos + 32) (rpos + 64)
            _deallocate_leaf_node block pos
            pure (ONELEFT, some left)
          else pure (DONE, none)
      else do
        let stored ← blockReadSlice block (rpos + 66) (rpos + 68)
        let child ← oneBased (from_bytes stored)
        let (r, val) ← _remove_leaf_inner fuel toremove block child (depth + 1)
        if r = DONE then pure (DONE, none)
        else if r = INVALIDATING then do
          if t = MIDDLE then do
            blockMakeInvalid block (rpos + 32)
            let t0 ← blockGetType block rpos
            if t0 ≠ INVALID then pure (INVALIDATING, none) else pure (DONE, none)
          else pure (DONE, none)
        else if r = ONELEFT then do
          let t0 ← blockGetType block rpos
          if t0 = EMPTY then throw .assertionError
          let v ← expectBytes val
          blockWriteSlice block (rpos + 32) (rpos + 64) v
          blockWriteSlice block (rpos + 66) (rpos + 68) (List.replicate 2 0)
          if t0 = TERMINAL then pure (FRAGILE, none)
          else if t ≠ INVALID ∧ t0 ≠ INVALID then pure (INVALIDATING, none)
          else pure (DONE, none)
        else do
          if r ≠ FRAGILE then throw .assertionError
          let t0 ← blockGetType block rpos
          if t0 = EMPTY then do
            if t ≠ INVALID then blockMakeInvalid block (rpos + 32)
            pure (FRAGILE, none)
          else do
            let stored2 ← blockReadSlice block (rpos + 66) (rpos + 68)
            let child2 ← oneBased (from_bytes stored2)
            _catch_leaf fuel block child2
            let t1b ← blockGetType block (rpos + 32)
            if t1b = INVALID then pure (DONE, none)
            else do
              blockMakeInvalid block (rpos + 32)
              if t0 = INVALID then pure (DONE, none)
              else pure (INVALIDATING, none)

/-- Source `_remove_leaf`: the inner removal plus reference-count upkeep of
the host leaf block. -/
def _remove_leaf (fuel : Nat) (toremove : Bytes) (block : Nat) (pos depth : Nat)
    (branch : Nat) : PyM (Nat × Option Bytes) := do
  let (result, val) ← _remove_leaf_inner fuel toremove block pos depth
  if result = ONELEFT then do
    let c ← blockReadSlice block 2 4
    let numin := from_bytes c
    if numin = 1 then do
      mdeallocate block
      let aref ← blockReadSlice branch 0 8
      if aref = mderef block then
        blockWriteSlice branch 0 8 (List.replicate 8 0)
    else
      blockWriteSlice block 2 4 (to_bytes (numin - 1) 2)
  pure (result, val)

mutual

/-- Source `_remove_branch`: remove below a whole branch block, freeing the
block when only one element is left. -/
def _remove_branch (fuel : Nat) (toremove : Bytes) (block : Nat) (depth : Nat) :
    PyM (Nat × Option Bytes) :=
  match fuel with
  | 0 => throw .nonTermination
  | fuel + 1 => do
    let td ← topModdepth
    let (result, val) ← _remove_branch_inner fuel toremove block 8 depth td
    if result = NOTSTARTED then throw .assertionError
    if result = ONELEFT then
      mdeallocate block
    pure (result, val)
termination_by fuel

/-- Source `_remove_branch_inner`: the branch-block removal walk, mirroring
`_remove_leaf_inner` over inline slots and cross-block references. -/
def _remove_branch_inner (fuel : Nat) (toremove : Bytes) (block : Nat)
    (pos depth moddepth : Nat) : PyM (Nat × Option Bytes) :=
  match fuel with
  | 0 => throw .nonTermination
  | fuel + 1 => do
    if moddepth = 0 then do
      let bref ← blockReadSlice block pos (pos + 8)
      if bref = List.replicate 8 0 then pure (NOTSTARTED, none)
      else do
        let stored ← blockReadSlice block (pos + 8) (pos + 10)
        let p := from_bytes stored
        let sub? ← mref bref
        let sub ← expectSome sub?
        let (r, val) ←
          (if p = 0xFFFF then
            _remove_branch fuel toremove sub depth
          else
            _remove_leaf fuel toremove sub p depth block)
        if r = ONELEFT then
          blockWriteSlice block pos (pos + 10) (List.replicate 10 0)
        pure (r, val)
    else do
      let bit ← liftM (get_bit toremove depth)
      if bit = 0 then do
        let (r, val) ← _remove_branch_inner fuel toremove block (pos + 64) (depth + 1) (moddepth - 1)
        if r = NOTSTARTED then do
          let t ← blockGetType block pos
          if t = EMPTY then do
            let t1 ← blockGetType block (pos + 32)
            if t1 = EMPTY then pure (NOTSTARTED, none) else pure (DONE, none)
          else do
            if t ≠ TERMINAL then throw .assertionError
            let v0 ← blockReadSlice block pos (pos + 32)
            if v0 = toremove then do
              let t1 ← blockGetType block (pos + 32)
              if t1 = TERMINAL then do
                let left ← blockReadSlice block (pos + 32) (pos + 64)
                blockWriteSlice block pos (pos + 64) (List.replicate 64 0)
                pure (ONELEFT, some left)
              else do
                if t1 = EMPTY then throw .assertionError
                blockWriteSlice block pos (pos + 32) (List.replicate 32 0)
                pure (FRAGILE, none)
            else do
              let v1 ← blockReadSlice block (pos + 32) (pos + 64)
              if v1 = toremove then do
                let left ← blockReadSlice block pos (pos + 32)
                blockWriteSlice block pos (pos + 64) (List.replicate 64 0)
                pure (ONELEFT, some left)
              else pure (DONE, none)
        else if r = ONELEFT then do
          let t ← blockGetType block pos
          let was_invalid := t = INVALID
          let v ← expectBytes val
          blockWriteSlice block pos (pos + 32) v
          let t1 ← blockGetType block (pos + 32)
          if t1 = TERMINAL then pure (FRAGILE, none)
          else if ¬ was_invalid then pure (INVALIDATING, none)
          else pure (DONE, none)
        else if r = FRAGILE then do
          let t1 ← blockGetType block (pos + 32)
          if t1 = EMPTY then do
            let t ← blockGetType block pos
            if t ≠ INVALID then blockMakeInvalid block pos
            pure (FRAGILE, none)
          else do
            _catch_branch fuel block (pos + 64) (moddepth - 1)
            let t ← blockGetType block pos
            if t = INVALID then pure (DONE, none)
            else do
              blockMakeInvalid block pos
              if t1 = INVALID then pure (DONE, none)
              else pure (INVALIDATING, none)
        else if r = INVALIDATING then do
          let t ← blockGetType block pos
          if t = INVALID then pure (DONE, none)
          else do
            if t ≠ MIDDLE then throw .assertionError
            blockMakeInvalid block pos
            let t1 ← blockGetType block (pos + 32)
            if t1 = INVALID then pure (DONE, none)
            else pure (INVALIDATING, none)
        else do
          if r ≠ DONE then throw .assertionError
          pure (r, val)
      else do
        let sub ← sblGet (moddepth - 1)
        let (r, val) ← _remove_branch_inner fuel toremove block (pos + 64 + sub) (depth + 1) (moddepth - 1)
        if r = NOTSTARTED then do
          let t ← blockGetType block (pos + 32)
          if t = EMPTY then do
            let t0 ← blockGetType block pos
            if t0 = EMPTY then pure (NOTSTARTED, none) else pure (DONE, none)
          else do
            if t ≠ TERMINAL then throw .assertionError
            let v1 ← blockReadSlice block (pos + 32) (pos + 64)
            if v1 = toremove then do
              let t0 ← blockGetType block pos
              if t0 = TERMINAL then do
                let left ← blockReadSlice block pos (pos + 32)
                blockWriteSlice block pos (pos + 64) (List.replicate 64 0)
                pure (ONELEFT, some left)
              else do
                blockWriteSlice block (pos + 32) (pos + 64) (List.replicate 32 0)
                pure (FRAGILE, none)
            else do
              let v0 ← blockReadSlice block pos (pos + 32)
              if v0 = toremove then do
                let left ← blockReadSlice block (pos + 32) (pos + 64)
                blockWriteSlice block pos (pos + 64) (List.replicate 64 0)
                pure (ONELEFT, some left)
              else pure (DONE, none)
        else if r = ONELEFT then do
          let t ← blockGetType block (pos + 32)
          let was_invalid := t = INVALID
          let v ← expectBytes val
          blockWriteSlice block (pos + 32) (pos + 64) v
          let t0 ← blockGetType block pos
          if t0 = TERMINAL then pure (FRAGILE, none)
          else if ¬ was_invalid then pure (INVALIDATING, none)
          else pure (DONE, none)
        else if r = FRAGILE then do
          let t0 ← blockGetType block pos
          if t0 = EMPTY then do
            let t1 ← blockGetType block (pos + 32)
            if t1 ≠ INVALID then blockMakeInvalid block (pos + 32)
            pure (FRAGILE, none)
          else do
            _catch_branch fuel block (pos + 64 + sub) (moddepth - 1)
            let t1 ← blockGetType block (pos + 32)
            if t1 = INVALID then pure (DONE, none)
            else do
              blockMakeInvalid block (pos + 32)
              if t0 = INVALID then pure (DONE, none)
              else pure (INVALIDATING, none)
        else if r = INVALIDATING then do
          let t ← blockGetType block (pos + 32)
          if t = INVALID then pure (DONE, none)
          else do
            if t ≠ MIDDLE then throw .assertionError
            blockMakeInvalid block (pos + 32)
            let t0 ← blockGetType block pos
            if t0 = INVALID then pure (DONE, none)
            else pure (INVALIDATING, none)
        else do
          if r ≠ DONE then throw .assertionError
          pure (r, val)
termination_by fuel

end

/-- Source `_remove`: the top-level removal, handling the EMPTY and TERMINAL
root slot directly and interpreting the returned status code. -/
def _remove (fuel : Nat) (toremove : Bytes) : PyM Unit := do
  let s ← get
  let t ← liftM (get_type s.root 0)
  if t = EMPTY then pure ()
  else if t = TERMINAL then do
    if toremove = s.root then
      modify fun st => { st with root := BLANK }
  else do
    let rb ← expectSome s.rootblock
    let (status, oneval) ← _remove_branch fuel toremove rb 0
    if status = INVALIDATING then do
      let s2 ← get
      let newroot ← liftM (make_invalid s2.root 0)
      modify fun st => { st with root := newroot }
    else if status = ONELEFT then do
      let v ← expectBytes oneval
      modify fun st => { st with root := v, rootblock := none }
    else if status = FRAGILE then do
      let s2 ← get
      let rb2 ← expectSome s2.rootblock
      let td ← topModdepth
      _catch_branch fuel rb2 8 td
      let s3 ← get
      let t3 ← liftM (get_type s3.root 0)
      if t3 ≠ INVALID then do
        let newroot ← liftM (make_invalid s3.root 0)
        modify fun st => { st with root := newroot }

/-- Source `remove_already_hashed`. -/
def remove_already_hashed (fuel : Nat) (toremove : Bytes) : PyM Unit := do
  let ft ← liftM (flip_terminal toremove)
  _remove fuel ft

/-- Source `remove`: hash the raw bytes with sha256 first. -/
def removeOp (sha : Bytes → Bytes) (fuel : Nat) (toremove : Bytes) : PyM Unit :=
  remove_already_hashed fuel (sha toremove)

/-- Source `_quick_summary`: one-slot summary used in proofs (EMPTY byte,
full terminal, or INVALID-tagged hash). -/
def _quick_summary (val : Bytes) : Except PyErr Bytes := do
  let t ← get_type val 0
  if t = EMPTY then pure [EMPTY]
  else if t = TERMINAL then pure val
  else do
    if t ≠ MIDDLE then throw .assertionError
    flip_invalid val

/-- Source `_finish_proof`: serialize a final two-slot node, re-expanding
the skipped levels when both slots are terminals sharing the current bit. -/
def _finish_proof (fuel : Nat) (val : Bytes) (depth : Nat) (buf : List Bytes) :
    Except PyErr (List Bytes) :=
  match fuel with
  | 0 => throw .nonTermination
  | fuel + 1 => do
    let v0 := readSlice val 0 32
    let v1 := val.drop 32
    let t0 ← get_type v0 0
    let bothTerminal ←
      (if t0 = TERMINAL then do
        let t1 ← get_type v1 0
        pure (t1 == TERMINAL)
      else pure false)
    let sameBit ←
      (if bothTerminal then do
        let b0 ← get_bit v0 depth
        let b1 ← get_bit v1 depth
        pure (some (b0 == b1, b0))
      else pure none)
    match sameBit with
    | some (true, b0) =>
      if b0 = 0 then do
        let r ← _finish_proof fuel val (depth + 1) (buf ++ [[MIDDLE]])
        pure (r ++ [[EMPTY]])
      else
        _finish_proof fuel val (depth + 1) (buf ++ [[EMPTY], [MIDDLE]])
    | _ => do
      let q0 ← _quick_summary v0
      let q1 ← _quick_summary v1
      pure (buf ++ [q0, q1])

/-- Source `_is_included_leaf`: proof-generating membership walk inside a
leaf block. -/
def _is_included_leaf (fuel : Nat) (tocheck : Bytes) (block : Nat) (pos depth : Nat)
    (buf : List Bytes) : PyM (Bool × List Bytes) :=
  match fuel with
  | 0 => throw .nonTermination
  | fuel + 1 => do
    let rpos := 4 + pos * 68
    let buf1 := buf ++ [[MIDDLE]]
    let v0 ← blockReadSlice block rpos (rpos + 32)
    let v1 ← blockReadSlice block (rpos + 32) (rpos + 64)
    if v0 = tocheck ∨ v1 = tocheck then do
      let pair ← blockReadSlice block rpos (rpos + 64)
      let buf2 ← liftM (_finish_proof fuel pair depth buf1)
      pure (true, buf2)
    else do
      let bit ← liftM (get_bit tocheck depth)
      if bit = 0 then do
        let t ← blockGetType block rpos
        if t = EMPTY ∨ t = TERMINAL then do
          let pair ← blockReadSlice block rpos (rpos + 64)
          let buf2 ← liftM (_finish_proof fuel pair depth buf1)
          pure (false, buf2)
        else do
          if t ≠ MIDDLE then throw .assertionError
          let stored ← blockReadSlice block (rpos + 64) (rpos + 66)
          let child ← oneBased (from_bytes stored)
          let (r, buf2) ← _is_included_leaf fuel tocheck block child (depth + 1) buf1
          let sib ← blockReadSlice block (rpos + 32) (rpos + 64)
          let q ← liftM (_quick_summary sib)
          pure (r, buf2 ++ [q])
      else do
        let t ← blockGetType block (rpos + 32)
        if t = EMPTY ∨ t = TERMINAL then do
          let pair ← blockReadSlice block rpos (rpos + 64)
          let buf2 ← liftM (_finish_proof fuel pair depth buf1)
          pure (false, buf2)
        else do
          if t ≠ MIDDLE then throw .assertionError
          let sib ← blockReadSlice block rpos (rpos + 32)
          let q ← liftM (_quick_summary sib)
          let stored ← blockReadSlice block (rpos + 66) (rpos + 68)
          let child ← oneBased (from_bytes stored)
          _is_included_leaf fuel tocheck block child (depth + 1) (buf1 ++ [q])

/-- Source `_is_included_branch`: proof-generating membership walk over the
inline slots of a branch block and its cross-block references. -/
def _is_included_branch (fuel : Nat) (tocheck : Bytes) (block : Nat) (pos depth moddepth : Nat)
    (buf : List Bytes) : PyM (Bool × List Bytes) :=
  match fuel with
  | 0 => throw .nonTermination
  | fuel + 1 => do
    if moddepth = 0 then do
      let stored ← blockReadSlice block (pos + 8) (pos + 10)
      let bref ← blockReadSlice block pos (pos + 8)
      let sub? ← mref bref
      let sub ← expectSome sub?
      if stored = [0xFF, 0xFF] then do
        let td ← topModdepth
        _is_included_branch fuel tocheck sub 8 depth td buf
      else
        _is_included_leaf fuel tocheck sub (from_bytes stored) depth buf
    else do
      let buf1 := buf ++ [[MIDDLE]]
      let v0 ← blockReadSlice block pos (pos + 32)
      let v1 ← blockReadSlice block (pos + 32) (pos + 64)
      if v0 = tocheck ∨ v1 = tocheck then do
        let pair ← blockReadSlice block pos (pos + 64)
        let buf2 ← liftM (_finish_proof fuel pair depth buf1)
        pure (true, buf2)
      else do
        let bit ← liftM (get_bit tocheck depth)
        if bit = 0 then do
          let t ← blockGetType block pos
          if t = EMPTY ∨ t = TERMINAL then do
            let pair ← blockReadSlice block pos (pos + 64)
            let buf2 ← liftM (_finish_proof fuel pair depth buf1)
            pure (false, buf2)
          else do
            if t ≠ MIDDLE then throw .assertionError
            let (r, buf2) ← _is_included_branch fuel tocheck block (pos + 64) (depth + 1) (moddepth - 1) buf1
            let sib ← blockReadSlice block (pos + 32) (pos + 64)
            let q ← liftM (_quick_summary sib)
            pure (r, buf2 ++ [q])
        else do
          let t ← blockGetType block (pos + 32)
          if t = EMPTY ∨ t = TERMINAL then do
            let pair ← blockReadSlice block pos (pos + 64)
            let buf2 ← liftM (_finish_proof fuel pair depth buf1)
            pure (false, buf2)
          else do
            if t ≠ MIDDLE then throw .assertionError
            let sib ← blockReadSlice block pos (pos + 32)
            let q ← liftM (_quick_summary sib)
            let sub ← sblGet (moddepth - 1)
            _is_included_branch fuel tocheck block (pos + 64 + sub) (depth + 1) (moddepth - 1) (buf1 ++ [q])

/-- Source `_is_included`: force the root, then answer membership for an
already-flipped TERMINAL value together with the serialized proof. -/
def _is_included (blake : Bytes → Bytes) (fuel : Nat) (tocheck : Bytes) :
    PyM (Bool × Bytes) := do
  let _ ← get_root blake fuel
  let s ← get
  let t ← liftM (get_type s.root 0)
  if t = EMPTY then pure (false, [EMPTY])
  else if t = TERMINAL then pure (tocheck = s.root, s.root)
  else do
    if t ≠ MIDDLE then throw .assertionError
    let rb ← expectSome s.rootblock
    let td ← topModdepth
    let (r, buf) ← _is_included_branch fuel tocheck rb 8 0 td []
    pure (r, buf.flatten)

/-- Source `is_included_already_hashed`. -/
def is_included_already_hashed (blake : Bytes → Bytes) (fuel : Nat) (tocheck : Bytes) :
    PyM (Bool × Bytes) := do
  let ft ← liftM (flip_terminal tocheck)
  _is_included blake fuel ft

/-- Source `is_included`: hash the raw bytes with sha256 first. -/
def is_includedOp (sha blake : Bytes → Bytes) (fuel : Nat) (tocheck : Bytes) :
    PyM (Bool × Bytes) :=
  is_included_already_hashed blake fuel (sha tocheck)

/-- The reference set object: a wrapper around a root node (`ReferenceMerkleSet`
as used by the verifier; a `None` root is the empty node). -/
structure ReferenceMerkleSet where
  root : RNode
deriving Repr

/-- Python `ReferenceMerkleSet.get_root`. -/
def ReferenceMerkleSet.get_root (s : ReferenceMerkleSet) : Bytes := s.root.hash

/-- Python `ReferenceMerkleSet.is_included_already_hashed`. -/
def ReferenceMerkleSet.is_included_already_hashed (s : ReferenceMerkleSet) (tocheck : Bytes) :
    Except PyErr (Bool × Bytes) := do
  let t ← flip_terminal tocheck
  let (r, p) ← s.root.is_included t 0 []
  pure (r, p.flatten)

/-- Source `_deserialize`: parse one subtree of the proof wire format at
byte offset `pos`, tracking the path `bits` for the terminal audit.  The
fuel only bounds the recursion depth; callers pass `len(proof) + 1`, which
is enough for every possible run because each nesting level consumes at
least one byte. -/
def _deserialize (fuel : Nat) (blake : Bytes → Bytes) (proof : Bytes) (pos : Nat)
    (bits : List Nat) : Except PyErr (RNode × Nat) :=
  match fuel with
  | 0 => throw .nonTermination
  | fuel + 1 => do
    let b ← byteAt proof pos
    let t := b &&& INVALID
    if t = EMPTY then
      if b ≠ EMPTY then throw .setError
      else pure (.emptyNode, pos + 1)
    else if t = TERMINAL then do
      let n ← mkTerminalNode (readSlice proof pos (pos + 32)) (some bits)
      pure (n, pos + 32)
    else if t = INVALID then do
      let fm ← flip_middle (readSlice proof pos (pos + 32))
      pure (.unknownNode fm, pos + 32)
    else do
      if b ≠ MIDDLE then throw .setError
      let (v0, pos1) ← _deserialize fuel blake proof (pos + 1) (bits ++ [0])
      let (v1, pos2) ← _deserialize fuel blake proof pos1 (bits ++ [1])
      let n ← mkMiddleNode blake v0 v1
      pure (n, pos2)

/-- Source `deserialize_proof`: parse a whole proof, requiring it to consume
every byte; only `IndexError` is converted to `SetError` by its handler. -/
def deserialize_proof (blake : Bytes → Bytes) (proof : Bytes) :
    Except PyErr ReferenceMerkleSet :=
  let body : Except PyErr ReferenceMerkleSet := do
    let (r, pos) ← _deserialize (proof.length + 1) blake proof 0 []
    if pos ≠ proof.length then throw .setError
    pure ⟨r⟩
  match body with
  | .error .indexError => .error .setError
  | other => other

/-- Source `_confirm`: rebuild the tree from the proof, compare roots, then
re-ask membership; only `SetError` is converted to a `False` answer by its
handler — any other exception propagates to the caller. -/
def _confirm (blake : Bytes → Bytes) (root val proof : Bytes) (expected : Bool) :
    Except PyErr Bool :=
  let body : Except PyErr Bool := do
    let p ← deserialize_proof blake proof
    if p.get_root ≠ root then pure false
    else do
      let (r, _) ← p.is_included_already_hashed val
      pure (r == expected)
  match body with
  | .error .setError => .ok false
  | other => other

/-- Source `confirm_included_already_hashed`. -/
def confirm_included_already_hashed (blake : Bytes → Bytes) (root val proof : Bytes) :
    Except PyErr Bool :=
  _confirm blake root val proof true

/-- Source `confirm_not_included_already_hashed`. -/
def confirm_not_included_already_hashed (blake : Bytes → Bytes) (root val proof : Bytes) :
    Except PyErr Bool :=
  _confirm blake root val proof false

/-- Source `confirm_included`: NOTE this is translated exactly as written in
the source, which delegates to `confirm_not_included_already_hashed`. -/
def confirm_included (sha blake : Bytes → Bytes) (root val proof : Bytes) :
    Except PyErr Bool :=
  confirm_not_included_already_hashed blake root (sha val) proof

/-- Source `confirm_not_included`. -/
def confirm_not_included (sha blake : Bytes → Bytes) (root val proof : Bytes) :
    Except PyErr Bool :=
  confirm_not_included_already_hashed blake root (sha val) proof

/-- Python `TerminalNode._make_middle`: wrap two children sharing leading
bits into a chain of middle nodes with empty siblings until they diverge. -/
def _make_middle (blake : Bytes → Bytes) (fuel : Nat) (c0 c1 : RNode) (depth : Nat) :
    Except PyErr RNode :=
  match fuel with
  | 0 => throw .nonTermination
  | fuel + 1 => do
    let b0 ← get_bit c0.hash depth
    let b1 ← get_bit c1.hash depth
    if b0 ≠ b1 then mkMiddleNode blake c0 c1
    else do
      let inner ← _make_middle blake fuel c0 c1 (depth + 1)
      if b0 = 0 then mkMiddleNode blake inner .emptyNode
      else mkMiddleNode blake .emptyNode inner

/-- Python `add(toadd, depth)` on reference nodes.  The source's `is`
identity test on the child result is modelled by structural equality (the
source returns `self` exactly when nothing changed, and a structurally
equal fresh node is observationally the same tree).  `UnknownNode` has no
`add` method; calling it raises in Python, modelled by `typeError`. -/
def RNode.add (blake : Bytes → Bytes) (fuel : Nat) : RNode → Bytes → Nat → Except PyErr RNode
  | .emptyNode, toadd, _ => mkTerminalNode toadd none
  | .terminalNode h, toadd, depth => do
    if toadd = h then pure (.terminalNode h)
    else do
      let lo := if bytesLt h toadd then h else toadd
      let hi := if bytesLt h toadd then toadd else h
      let n0 ← mkTerminalNode lo none
      let n1 ← mkTerminalNode hi none
      _make_middle blake fuel n0 n1 depth
  | .middleNode h c0 c1, toadd, depth => do
    let bit ← get_bit toadd depth
    if bit = 0 then do
      let newchild ← RNode.add blake fuel c0 toadd (depth + 1)
      if newchild = c0 then pure (.middleNode h c0 c1)
      else mkMiddleNode blake newchild c1
    else do
      let newchild ← RNode.add blake fuel c1 toadd (depth + 1)
      if newchild = c1 then pure (.middleNode h c0 c1)
      else mkMiddleNode blake c0 newchild
  | .unknownNode _, _, _ => throw .typeError

/-- Python `remove(toremove, depth)` on reference nodes, with the collapse
of a terminal beside a newly empty sibling. -/
def RNode.remove (blake : Bytes → Bytes) : RNode → Bytes → Nat → Except PyErr RNode
  | .emptyNode, _, _ => pure .emptyNode
  | .terminalNode h, toremove, _ =>
    if toremove = h then pure .emptyNode else pure (.terminalNode h)
  | .middleNode h c0 c1, toremove, depth => do
    let bit ← get_bit toremove depth
    if bit = 0 then do
      let newchild ← RNode.remove blake c0 toremove (depth + 1)
      if newchild = c0 then pure (.middleNode h c0 c1)
      else if newchild.is_empty ∧ c1.is_terminal then pure c1
      else if newchild.is_terminal ∧ c1.is_empty then pure newchild
      else mkMiddleNode blake newchild c1
    else do
      let newchild ← RNode.remove blake c1 toremove (depth + 1)
      if newchild = c1 then pure (.middleNode h c0 c1)
      else if newchild.is_empty ∧ c0.is_terminal then pure c0
      else if newchild.is_terminal ∧ c0.is_empty then pure newchild
      else mkMiddleNode blake c0 newchild
  | .unknownNode _, _, _ => throw .typeError

/-- Python `ReferenceMerkleSet.add_already_hashed`. -/
def ReferenceMerkleSet.add_already_hashed (blake : Bytes → Bytes) (fuel : Nat)
    (s : ReferenceMerkleSet) (toadd : Bytes) : Except PyErr ReferenceMerkleSet := do
  let ft ← flip_terminal toadd
  let r ← s.root.add blake fuel ft 0
  pure ⟨r⟩

/-- Python `ReferenceMerkleSet.remove_already_hashed`. -/
def ReferenceMerkleSet.remove_already_hashed (blake : Bytes → Bytes)
    (s : ReferenceMerkleSet) (toremove : Bytes) : Except PyErr ReferenceMerkleSet := do
  let ft ← flip_terminal toremove
  let r ← s.root.remove blake ft 0
  pure ⟨r⟩

/-- Computable stand-in for the external `sha256` primitive from `hashlib`
(not part of the repository): any function returning 32 bytes exercises the
translated code, since the source treats digests as opaque 32-byte strings. -/
def shaModel : Bytes → Bytes := fun l => (l ++ List.replicate 32 0).take 32

/-- Computable stand-in for the external `blake2s` primitive from `hashlib`,
with the same opaque-digest interface. -/
def blakeModel : Bytes → Bytes := fun l =>
  let s := l.foldl (fun a b => (a * 131 + b + 7) % 65521) 3
  (List.range 32).map (fun i => (s + i * 37 + l.length * 11) % 256)

/-- Scenario for the `confirm_included` claim: build `MerkleSet(1, 1)`, add
the raw value `[1, 2, 3]`, query it, and report (membership answer,
`confirm_included(get_root(), x, p)`, `confirm_included_already_hashed`
on the same proof). -/
def c2Run : Except PyErr (Bool × Bool × Bool) := do
  let s1 ← ((addOp shaModel 100 [1, 2, 3]).run (MerkleSetState.init 1 1)).map Prod.snd
  let (b, pr) ← ((is_includedOp shaModel blakeModel 100 [1, 2, 3]).run s1).map Prod.fst
  let root ← ((get_root blakeModel 100).run s1).map Prod.fst
  let ci ← confirm_included shaModel blakeModel root [1, 2, 3] pr
  let cih ← confirm_included_already_hashed blakeModel root (shaModel [1, 2, 3]) pr
  pure (b, ci, cih)

/-- Sample 32-byte hash used by witnesses. -/
def sampleElem : Bytes := 5 :: List.replicate 31 9

/-- The same hash with both reserved top bits of byte 0 flipped
(`197 = 5 + 0xC0`): it agrees with `sampleElem` on the low 254 bits. -/
def sampleElemFlipped : Bytes := 197 :: List.replicate 31 9

/-- TERMINAL encoding of `sampleElem` (`69 = 0x40 + 5`). -/
def sampleTerminal : Bytes := 69 :: List.replicate 31 9

/-- The `MerkleSet(1, 1)` state holding exactly `sampleElem`: the root slot
stores its TERMINAL encoding and no blocks are allocated. -/
def singletonState : MerkleSetState :=
  { MerkleSetState.init 1 1 with root := sampleTerminal }

/-- Property of a stateful computation that any successful run returns in
the very state it started from (used for the proof-generating walks, which
only read the arena). -/
def PreservesState {α : Type} (m : PyM α) : Prop :=
  ∀ s a s', m s = .ok (a, s') → s' = s

/-- Property of a stateful computation producing bytes that any successful
result carries the MIDDLE tag (used for the lazy-recomputation walks, whose
every return value is a `hasher` output). -/
def ResultMiddle (m : PyM Bytes) : Prop :=
  ∀ s rt s', m s = .ok (rt, s') → get_type rt 0 = .ok MIDDLE
theorem land63_lt (x : Nat) : x &&& 63 < 64 := Nat.lt_succ_of_le Nat.and_le_right

theorem tagTerm (x : Nat) : (TERMINAL ||| (x &&& 63)) &&& INVALID = TERMINAL := by
  have h2 : ∀ y < 64, (64 ||| y) &&& 192 = 64 := by decide
  simpa [TERMINAL, INVALID, MIDDLE] using h2 _ (land63_lt x)

theorem get_root_no_force (blake : Bytes → Bytes) (fuel : Nat) (s : MerkleSetState) (t : Nat)
    (ht : get_type s.root 0 = .ok t) (hne : t ≠ INVALID) :
    (get_root blake fuel).run s = .ok (s.root, s) := by
  simp [get_root, StateT.run, StateT.bind, StateT.lift, StateT.pure, get, getThe,
        MonadStateOf.get, StateT.get, ht, hne, bind, Except.bind, pure, Except.pure,
        liftM, monadLift, MonadLift.monadLift, Except.map]

theorem flip_terminal_ok (e ft : Bytes) (hf : flip_terminal e = .ok ft) :
    ∃ a r, e = a :: r ∧ ft = (TERMINAL ||| (a &&& 63)) :: r := by
  match e with
  | [] => simp [flip_terminal, throw, throwThe, MonadExceptOf.throw] at hf
  | a :: r =>
    refine ⟨a, r, rfl, ?_⟩
    by_cases h : r.length + 1 = 32
    · simp [flip_terminal, h, byteAt, pure, Except.pure, bind, Except.bind] at hf
      exact hf.symm
    · simp [flip_terminal, h, throw, throwThe, MonadExceptOf.throw] at hf

theorem get_root_terminal (blake : Bytes → Bytes) (fuel : Nat) (s : MerkleSetState)
    (e ft : Bytes) (hf : flip_terminal e = .ok ft) (hr : s.root = ft) :
    (get_root blake fuel).run s = .ok (ft, s) := by
  obtain ⟨a, r, _, hft⟩ := flip_terminal_ok e ft hf
  have ht : get_type s.root 0 = .ok TERMINAL := by
    rw [hr, hft]
    simp [get_type, byteAt, bind, Except.bind, pure, Except.pure, tagTerm]
  have := get_root_no_force blake fuel s TERMINAL ht (by decide)
  rw [hr] at this
  exact this

theorem add_fresh (x ft : Bytes) (fuel d u : Nat) (hf : flip_terminal x = .ok ft) :
    (add_already_hashed fuel x).run (MerkleSetState.init d u)
      = .ok ((), { MerkleSetState.init d u with root := ft }) := by
  have hb : get_type (MerkleSetState.init d u).root 0 = .ok EMPTY := rfl
  simp [add_already_hashed, _add, hf, hb, StateT.run, StateT.bind, StateT.lift, StateT.pure,
        get, getThe, MonadStateOf.get, StateT.get, bind, Except.bind, pure, Except.pure,
        liftM, monadLift, MonadLift.monadLift, Except.map, modify, modifyGet,
        MonadStateOf.modifyGet, StateT.modifyGet, EMPTY, INVALID, TERMINAL, MIDDLE]

theorem remove_singleton (x ft : Bytes) (fuel d u : Nat) (hf : flip_terminal x = .ok ft) :
    (remove_already_hashed fuel x).run { MerkleSetState.init d u with root := ft }
      = .ok ((), MerkleSetState.init d u) := by
  obtain ⟨a, r, _, hft⟩ := flip_terminal_ok x ft hf
  have ht : get_type ({ MerkleSetState.init d u with root := ft } : MerkleSetState).root 0
      = .ok TERMINAL := by
    show get_type ft 0 = .ok TERMINAL
    rw [hft]
    simp [get_type, byteAt, bind, Except.bind, pure, Except.pure, tagTerm]
  simp [remove_already_hashed, _remove, hf, ht, StateT.run, StateT.bind, StateT.lift,
        StateT.pure, get, getThe, MonadStateOf.get, StateT.get, bind, Except.bind, pure,
        Except.pure, liftM, monadLift, MonadLift.monadLift, Except.map, modify, modifyGet,
        MonadStateOf.modifyGet, StateT.modifyGet, TERMINAL, EMPTY, INVALID, MIDDLE, BLANK]
  rfl

theorem flip_eq_of_low254 (a a' : Nat) (r : Bytes) (hr : r.length = 31)
    (hbits : a &&& 63 = a' &&& 63) :
    flip_terminal (a :: r) = flip_terminal (a' :: r) := by
  simp [flip_terminal, hr, byteAt, bind, Except.bind, pure, Except.pure, hbits]

theorem add_congr (x x' : Bytes) (hf : flip_terminal x = flip_terminal x') (fuel : Nat)
    (s : MerkleSetState) :
    (add_already_hashed fuel x).run s = (add_already_hashed fuel x').run s := by
  simp only [add_already_hashed, hf]

theorem query_after_add (x x' ft : Bytes) (hf : flip_terminal x = .ok ft)
    (hf' : flip_terminal x' = .ok ft) (blake : Bytes → Bytes) (fuel fuel2 d u : Nat) :
    ((add_already_hashed fuel x) >>= fun _ =>
        is_included_already_hashed blake fuel2 x').run (MerkleSetState.init d u)
      = .ok ((true, ft), { MerkleSetState.init d u with root := ft }) := by
  obtain ⟨a, r, _, hft⟩ := flip_terminal_ok x ft hf
  have hadd : add_already_hashed fuel x (MerkleSetState.init d u)
      = .ok ((), { MerkleSetState.init d u with root := ft }) :=
    add_fresh x ft fuel d u hf
  have hroot : get_root blake fuel2 ({ MerkleSetState.init d u with root := ft })
      = .ok (ft, { MerkleSetState.init d u with root := ft }) :=
    get_root_terminal blake fuel2 ({ MerkleSetState.init d u with root := ft }) x ft hf rfl
  have ht : get_type ft 0 = .ok TERMINAL := by
    rw [hft]
    simp [get_type, byteAt, bind, Except.bind, pure, Except.pure, tagTerm]
  simp [StateT.run_bind, hadd, is_included_already_hashed, _is_included, hf', hroot, ht,
        StateT.run, StateT.bind, StateT.lift, StateT.pure, get, getThe, MonadStateOf.get,
        StateT.get, bind, Except.bind, pure, Except.pure, liftM, monadLift,
        MonadLift.monadLift, Except.map, TERMINAL, EMPTY, MIDDLE, INVALID]

theorem blockReadSlice_eq (h a b : Nat) (s : MerkleSetState) :
    blockReadSlice h a b s =
      match s.pointers_to_arrays.lookup h with
      | some blk => .ok (readSlice blk a b, s)
      | none => .error .keyError := by
  simp [blockReadSlice, heapLookup, StateT.bind, bind, Except.bind, pure, Except.pure,
        StateT.pure, get, getThe, MonadStateOf.get, StateT.get, throw, throwThe,
        MonadExceptOf.throw, StateT.lift, Except.map, liftM, monadLift, MonadLift.monadLift]
  cases s.pointers_to_arrays.lookup h <;> rfl

theorem blockGetType_eq (h pos : Nat) (s : MerkleSetState) :
    blockGetType h pos s =
      match s.pointers_to_arrays.lookup h with
      | some blk =>
        (match get_type blk pos with
         | .ok t => .ok (t, s)
         | .error e => .error e)
      | none => .error .keyError := by
  cases hl : s.pointers_to_arrays.lookup h with
  | none =>
    simp [blockGetType, heapLookup, hl, StateT.bind, bind, Except.bind, pure, Except.pure,
          StateT.pure, get, getThe, MonadStateOf.get, StateT.get, throw, throwThe,
          MonadExceptOf.throw, StateT.lift, Except.map, liftM, monadLift, MonadLift.monadLift]
  | some blk =>
    cases hg : get_type blk pos <;>
      simp [blockGetType, heapLookup, hl, hg, StateT.bind, bind, Except.bind, pure,
            Except.pure, StateT.pure, get, getThe, MonadStateOf.get, StateT.get, throw,
            throwThe, MonadExceptOf.throw, StateT.lift, Except.map, liftM, monadLift,
            MonadLift.monadLift]

theorem liftM_eq {α : Type} (e : Except PyErr α) (s : MerkleSetState) :
    (liftM e : PyM α) s =
      match e with
      | .ok a => .ok (a, s)
      | .error err => .error err := by
  cases e <;> rfl

theorem mref_eq (r : Bytes) (s : MerkleSetState) :
    mref r s =
      if r.length ≠ 8 then .error .assertionError
      else if r = to_bytes 0 8 then .ok (none, s)
      else if (s.pointers_to_arrays.lookup (from_bytes r)).isSome then
        .ok (some (from_bytes r), s)
      else .error .keyError := by
  by_cases h1 : r.length = 8 <;> by_cases h2 : r = to_bytes 0 8 <;>
    cases hl : (s.pointers_to_arrays.lookup (from_bytes r)).isSome <;>
    simp [mref, h1, h2, hl, StateT.bind, bind, Except.bind, pure, Except.pure, StateT.pure,
          get, getThe, MonadStateOf.get, StateT.get, throw, throwThe, MonadExceptOf.throw,
          StateT.lift, Except.map, liftM, monadLift, MonadLift.monadLift,
          show (to_bytes 0 8).length = 8 from rfl]

theorem stbind_app {α β : Type} (m : PyM α) (k : α → PyM β) (s : MerkleSetState) :
    (m >>= k) s =
      match m s with
      | .error e => .error e
      | .ok p => k p.1 p.2 := by
  show Except.bind (m s) _ = _
  cases m s <;> rfl

theorem stpure_app {α : Type} (a : α) (s : MerkleSetState) :
    (pure a : PyM α) s = .ok (a, s) := rfl

theorem stbind_app2 {α β : Type} (m : PyM α) (k : α → PyM β) (s : MerkleSetState) :
    (StateT.bind m k) s =
      match m s with
      | .error e => .error e
      | .ok p => k p.1 p.2 := by
  show Except.bind (m s) _ = _
  cases m s <;> rfl

theorem stget_app (s : MerkleSetState) : (get : PyM MerkleSetState) s = .ok (s, s) := rfl

theorem stthrow_app {α : Type} (e : PyErr) (s : MerkleSetState) :
    (throw e : PyM α) s = .error e := rfl

theorem stlift_app {α : Type} (e : Except PyErr α) (s : MerkleSetState) :
    (StateT.lift e : PyM α) s =
      match e with
      | .ok a => .ok (a, s)
      | .error err => .error err := by
  cases e <;> rfl

theorem oneBased_eq (n : Nat) (s : MerkleSetState) :
    oneBased n s =
      if n = 0 then .error .assertionError else .ok (n - 1, s) := by
  by_cases hn : n = 0 <;>
    simp [oneBased, hn, throw, throwThe, MonadExceptOf.throw, StateT.lift, StateT.pure,
          pure, Except.pure, bind, Except.bind]

theorem ps_stbind {α β : Type} {m : PyM α} {k : α → PyM β}
    (hm : PreservesState m) (hk : ∀ a, PreservesState (k a)) : PreservesState (m >>= k) := by
  intro s a s' h
  rw [stbind_app] at h
  cases hm2 : m s with
  | error e => rw [hm2] at h; cases h
  | ok p =>
    rw [hm2] at h
    have h1 := hm s p.1 p.2 hm2
    have h2 := hk p.1 p.2 a s' h
    rw [h2, h1]

theorem ps_pure {α : Type} (a : α) : PreservesState (pure a : PyM α) := by
  intro s b s' h
  rw [stpure_app] at h
  cases h
  rfl

theorem ps_throw {α : Type} (e : PyErr) : PreservesState (throw e : PyM α) := by
  intro s b s' h
  rw [stthrow_app] at h
  cases h

theorem ps_liftM {α : Type} (e : Except PyErr α) : PreservesState (liftM e : PyM α) := by
  intro s b s' h
  rw [liftM_eq] at h
  cases e
  · cases h
  · cases h; rfl

theorem ps_blockReadSlice (h a b : Nat) : PreservesState (blockReadSlice h a b) := by
  intro s x s' hx
  rw [blockReadSlice_eq] at hx
  cases hl : List.lookup h s.pointers_to_arrays <;> rw [hl] at hx
  · cases hx
  · cases hx; rfl

theorem ps_blockGetType (h pos : Nat) : PreservesState (blockGetType h pos) := by
  intro s x s' hx
  rw [blockGetType_eq] at hx
  cases hl : List.lookup h s.pointers_to_arrays with
  | none => simp [hl] at hx
  | some blk =>
    simp only [hl] at hx
    cases hg : get_type blk pos <;> simp [hg] at hx
    exact hx.2.symm

theorem ps_oneBased (n : Nat) : PreservesState (oneBased n) := by
  intro s x s' hx
  rw [oneBased_eq] at hx
  by_cases hn : n = 0 <;> simp [hn] at hx
  exact hx.2.symm

theorem ps_mref (r : Bytes) : PreservesState (mref r) := by
  intro s x s' hx
  rw [mref_eq] at hx
  by_cases h1 : r.length ≠ 8 <;> simp [h1] at hx
  by_cases h2 : r = to_bytes 0 8 <;> simp [h2] at hx
  · exact hx.2.symm
  · cases hl : (List.lookup (from_bytes r) s.pointers_to_arrays).isSome <;>
      simp [hl] at hx
    exact hx.2.symm

theorem ps_expectSome (o : Option Nat) : PreservesState (expectSome o) := by
  intro s x s' hx
  cases o with
  | none => simp [expectSome, stthrow_app] at hx
  | some v =>
    simp only [expectSome, stpure_app] at hx
    cases hx
    rfl

theorem ps_sblGet (i : Nat) : PreservesState (sblGet i) := by
  intro s x s' hx
  simp only [sblGet, stbind_app, stbind_app2, stget_app] at hx
  cases hg : s.subblock_lengths.get? i <;>
    simp only [hg, stthrow_app, stpure_app] at hx
  · cases hx
  · cases hx
    rfl

theorem ps_topModdepth : PreservesState topModdepth := by
  intro s x s' hx
  simp only [topModdepth, stbind_app, stbind_app2, stget_app, stpure_app] at hx
  cases hx
  rfl

theorem is_included_leaf_ps (fuel : Nat) :
    ∀ (tocheck : Bytes) (block pos depth : Nat) (buf : List Bytes),
      PreservesState (_is_included_leaf fuel tocheck block pos depth buf) := by
  induction fuel with
  | zero =>
    intro tocheck block pos depth buf
    simp only [_is_included_leaf]
    exact ps_throw _
  | succ fuel ih =>
    intro tocheck block pos depth buf
    simp only [_is_included_leaf]
    repeat' (first
      | exact ih _ _ _ _ _
      | apply ps_stbind
      | apply ps_pure
      | apply ps_throw
      | apply ps_liftM
      | apply ps_blockReadSlice
      | apply ps_blockGetType
      | apply ps_oneBased
      | split
      | intro)

theorem is_included_branch_ps (fuel : Nat) :
    ∀ (tocheck : Bytes) (block pos depth moddepth : Nat) (buf : List Bytes),
      PreservesState (_is_included_branch fuel tocheck block pos depth moddepth buf) := by
  induction fuel with
  | zero =>
    intro tocheck block pos depth moddepth buf
    simp only [_is_included_branch]
    exact ps_throw _
  | succ fuel ih =>
    intro tocheck block pos depth moddepth buf
    simp only [_is_included_branch]
    repeat' (first
      | exact ih _ _ _ _ _ _
      | exact is_included_leaf_ps fuel _ _ _ _ _
      | apply ps_stbind
      | apply ps_pure
      | apply ps_throw
      | apply ps_liftM
      | apply ps_blockReadSlice
      | apply ps_blockGetType
      | apply ps_oneBased
      | apply ps_mref
      | apply ps_expectSome
      | apply ps_sblGet
      | exact ps_topModdepth
      | split
      | intro)

theorem tagMid (x : Nat) : (MIDDLE ||| (x &&& 63)) &&& INVALID = MIDDLE := by
  have h2 : ∀ y < 64, (128 ||| y) &&& 192 = 128 := by decide
  simpa [MIDDLE, INVALID, TERMINAL] using h2 _ (land63_lt x)

theorem hasher_ok_shape (blake : Bytes → Bytes) (mystr rt : Bytes)
    (h : hasher blake mystr = .ok rt) : get_type rt 0 = .ok MIDDLE := by
  simp only [hasher, bind, Except.bind, pure, Except.pure, throw, throwThe,
             MonadExceptOf.throw] at h
  repeat' (split at h <;> try (cases h))
  all_goals simp [get_type, byteAt, bind, Except.bind, pure, Except.pure, tagMid]

theorem rm_stbind {α : Type} {m : PyM α} {k : α → PyM Bytes}
    (hk : ∀ a, ResultMiddle (k a)) : ResultMiddle (m >>= k) := by
  intro s rt s' h
  rw [stbind_app] at h
  cases hm : m s with
  | error e => rw [hm] at h; cases h
  | ok p => rw [hm] at h; exact hk p.1 p.2 rt s' h

theorem rm_throw (e : PyErr) : ResultMiddle (throw e : PyM Bytes) := by
  intro s rt s' h
  rw [stthrow_app] at h
  cases h

theorem rm_liftM_hasher (blake : Bytes → Bytes) (x : Bytes) :
    ResultMiddle (liftM (hasher blake x) : PyM Bytes) := by
  intro s rt s' h
  rw [liftM_eq] at h
  cases hh : hasher blake x <;> rw [hh] at h <;> cases h
  exact hasher_ok_shape blake x _ hh

theorem force_leaf_rm (blake : Bytes → Bytes) (fuel : Nat) :
    ∀ (block pos : Nat), ResultMiddle (_force_calculation_leaf blake fuel block pos) := by
  induction fuel with
  | zero =>
    intro block pos
    simp only [_force_calculation_leaf]
    exact rm_throw _
  | succ fuel ih =>
    intro block pos
    simp only [_force_calculation_leaf]
    repeat' (first
      | exact ih _ _
      | exact rm_liftM_hasher blake _
      | apply rm_stbind
      | apply rm_throw
      | split
      | intro)

theorem force_branch_rm (blake : Bytes → Bytes) (fuel : Nat) :
    ∀ (block pos moddepth : Nat),
      ResultMiddle (_force_calculation_branch blake fuel block pos moddepth) := by
  induction fuel with
  | zero =>
    intro block pos moddepth
    simp only [_force_calculation_branch]
    exact rm_throw _
  | succ fuel ih =>
    intro block pos moddepth
    simp only [_force_calculation_branch]
    repeat' (first
      | exact ih _ _ _
      | exact force_leaf_rm blake fuel _ _
      | exact rm_liftM_hasher blake _
      | apply rm_stbind
      | apply rm_throw
      | split
      | intro)

theorem expectSome_eq (o : Option Nat) (s : MerkleSetState) :
    expectSome o s =
      match o with
      | some h => .ok (h, s)
      | none => .error .typeError := by
  cases o <;> rfl

theorem topModdepth_eq (s : MerkleSetState) :
    topModdepth s = .ok (s.subblock_lengths.length - 1, s) := rfl

theorem modify_app (f : MerkleSetState → MerkleSetState) (s : MerkleSetState) :
    (modify f : PyM Unit) s = .ok ((), f s) := rfl

theorem get_root_post (blake : Bytes → Bytes) (fuel : Nat) (s : MerkleSetState)
    (rt : Bytes) (s1 : MerkleSetState) (h : (get_root blake fuel).run s = .ok (rt, s1)) :
    s1.root = rt ∧ ∃ t, get_type rt 0 = .ok t ∧ t ≠ INVALID := by
  simp only [get_root, StateT.run, stbind_app, stbind_app2, stget_app, stpure_app,
             stthrow_app, liftM_eq, expectSome_eq, topModdepth_eq, modify_app] at h
  cases hgt : get_type s.root 0 with
  | error e => simp only [hgt] at h; cases h
  | ok t =>
    simp only [hgt] at h
    by_cases hinv : t = INVALID
    · rw [if_pos hinv] at h
      simp only [stbind_app, stbind_app2, stget_app, stpure_app, stthrow_app,
                 liftM_eq, expectSome_eq, topModdepth_eq, modify_app] at h
      cases hrb : s.rootblock with
      | none => simp only [hrb] at h; cases h
      | some rb =>
        simp only [hrb] at h
        cases hf : _force_calculation_branch blake fuel rb 8 (s.subblock_lengths.length - 1) s with
        | error e => simp only [hf] at h; cases h
        | ok p =>
          simp only [hf] at h
          cases h
          refine ⟨rfl, MIDDLE, ?_, by decide⟩
          exact force_branch_rm blake fuel rb 8 (s.subblock_lengths.length - 1) s p.1 p.2 hf
    · rw [if_neg hinv] at h
      simp only [stbind_app, stbind_app2, stget_app, stpure_app] at h
      cases h
      exact ⟨rfl, t, hgt, hinv⟩

theorem inc_post (blake : Bytes → Bytes) (fuel : Nat) (x : Bytes) (s : MerkleSetState)
    (v : Bool × Bytes) (s1 : MerkleSetState)
    (h : (is_included_already_hashed blake fuel x).run s = .ok (v, s1)) :
    ∃ rt, (get_root blake fuel).run s = .ok (rt, s1) := by
  simp only [is_included_already_hashed, _is_included, StateT.run, stbind_app, stbind_app2,
             liftM_eq, stget_app, stpure_app, stthrow_app, expectSome_eq,
             topModdepth_eq] at h
  cases hft : flip_terminal x with
  | error e => simp only [hft] at h; cases h
  | ok ft =>
    simp only [hft] at h
    cases hgr : get_root blake fuel s with
    | error e => simp only [hgr] at h; cases h
    | ok q =>
      simp only [hgr, stbind_app, stbind_app2, liftM_eq, stget_app, stpure_app,
                 stthrow_app, expectSome_eq, topModdepth_eq] at h
      refine ⟨q.1, ?_⟩
      cases hg2 : get_type q.2.root 0 with
      | error e => simp only [hg2] at h; cases h
      | ok t =>
        simp only [hg2] at h
        by_cases hE : t = EMPTY
        · rw [if_pos hE] at h
          cases h
          exact hgr
        · rw [if_neg hE] at h
          by_cases hT : t = TERMINAL
          · rw [if_pos hT] at h
            cases h
            exact hgr
          · rw [if_neg hT] at h
            by_cases hM : t ≠ MIDDLE
            · rw [if_pos hM] at h
              simp only [stbind_app, stthrow_app] at h
              cases h
            · rw [if_neg hM] at h
              simp only [stbind_app, stbind_app2, stpure_app, stthrow_app, expectSome_eq,
                         topModdepth_eq] at h
              cases hrb : q.2.rootblock with
              | none => simp only [hrb] at h; cases h
              | some rb =>
                simp only [hrb] at h
                cases hw : _is_included_branch fuel ft rb 8 0
                    (q.2.subblock_lengths.length - 1) [] q.2 with
                | error e => simp only [hw] at h; cases h
                | ok w =>
                  simp only [hw] at h
                  cases h
                  have hpres := is_included_branch_ps fuel ft rb 8 0
                    (q.2.subblock_lengths.length - 1) [] q.2 w.1 w.2 hw
                  rw [hpres]
                  exact hgr


theorem remove_congr (x x' : Bytes) (hf : flip_terminal x = flip_terminal x') (fuel : Nat)
    (s : MerkleSetState) :
    (remove_already_hashed fuel x).run s = (remove_already_hashed fuel x').run s := by
  simp only [remove_already_hashed, hf]

theorem inc_congr (x x' : Bytes) (hf : flip_terminal x = flip_terminal x')
    (blake : Bytes → Bytes) (fuel : Nat) (s : MerkleSetState) :
    (is_included_already_hashed blake fuel x).run s
      = (is_included_already_hashed blake fuel x').run s := by
  simp only [is_included_already_hashed, _is_included, hf]

theorem addroot_congr (x x' : Bytes) (hf : flip_terminal x = flip_terminal x')
    (blake : Bytes → Bytes) (fuel fuel2 : Nat) (s : MerkleSetState) :
    ((add_already_hashed fuel x) >>= fun _ => get_root blake fuel2).run s
      = ((add_already_hashed fuel x') >>= fun _ => get_root blake fuel2).run s := by
  have h : add_already_hashed fuel x s = add_already_hashed fuel x' s :=
    add_congr x x' hf fuel s
  show ((add_already_hashed fuel x) >>= fun _ => get_root blake fuel2) s
      = ((add_already_hashed fuel x') >>= fun _ => get_root blake fuel2) s
  rw [stbind_app, stbind_app, h]

/-- C2: proof soundness fails for `confirm_included`. Building `MerkleSet(1, 1)`,
adding the raw value `[1, 2, 3]`, and querying it yields membership `true` together
with a proof `p`, yet `confirm_included(get_root(), [1, 2, 3], p)` returns `false`
for this member: `confirm_included` delegates to
`confirm_not_included_already_hashed` (merkle_set.py line 1263), so it checks the
proof against non-membership. `confirm_included_already_hashed` accepts the very
same proof, confirming the delegation is the culprit. -/
theorem C2_confirm_included_rejects_member : c2Run = .ok (true, false, true) := rfl

/-- C3: the claim that verifiers return `false` on malformed proofs and never
raise is false. For every root and candidate value, the one-byte proof `[0x40]`
(a TERMINAL tag with no payload) makes all four verifiers raise `AssertionError`:
the length assertion in `TerminalNode.__init__` escapes because `deserialize_proof`
and `_confirm` catch only `SetError` and `IndexError`. -/
theorem C3_verifiers_raise_on_truncated_proof (sha blake : Bytes → Bytes)
    (root val : Bytes) :
    confirm_included_already_hashed blake root val [64] = .error .assertionError ∧
    confirm_not_included_already_hashed blake root val [64] = .error .assertionError ∧
    confirm_included sha blake root val [64] = .error .assertionError ∧
    confirm_not_included sha blake root val [64] = .error .assertionError :=
  ⟨rfl, rfl, rfl, rfl⟩

/-- C8: the root of the empty set is BLANK and the root of a singleton is the
TERMINAL encoding of the sole element. Part 1: any state whose root slot holds
BLANK (as in a fresh set) reports BLANK from `get_root`. Part 2: any state whose
root slot holds the TERMINAL encoding `flip_terminal e` of an element reports
exactly that encoding. Part 3: adding one element to a fresh `MerkleSet(d, u)`
produces precisely the state whose root is the element's TERMINAL encoding, with
no blocks allocated. Part 4: removing that element restores the fresh state. -/
theorem C8_empty_blank_singleton_terminal :
    (∀ (blake : Bytes → Bytes) (fuel : Nat) (s : MerkleSetState), s.root = BLANK →
        (get_root blake fuel).run s = .ok (BLANK, s)) ∧
    (∀ (blake : Bytes → Bytes) (fuel : Nat) (s : MerkleSetState) (e ft : Bytes),
        flip_terminal e = .ok ft → s.root = ft →
        (get_root blake fuel).run s = .ok (ft, s)) ∧
    (∀ (x ft : Bytes) (fuel d u : Nat), flip_terminal x = .ok ft →
        (add_already_hashed fuel x).run (MerkleSetState.init d u)
          = .ok ((), { MerkleSetState.init d u with root := ft })) ∧
    (∀ (x ft : Bytes) (fuel d u : Nat), flip_terminal x = .ok ft →
        (remove_already_hashed fuel x).run { MerkleSetState.init d u with root := ft }
          = .ok ((), MerkleSetState.init d u)) := by
  refine ⟨?_, fun blake fuel s e ft hf hr => get_root_terminal blake fuel s e ft hf hr,
         fun x ft fuel d u hf => add_fresh x ft fuel d u hf,
         fun x ft fuel d u hf => remove_singleton x ft fuel d u hf⟩
  intro blake fuel s hr
  have ht : get_type s.root 0 = .ok EMPTY := by rw [hr]; rfl
  have h := get_root_no_force blake fuel s EMPTY ht (by decide)
  rw [hr] at h
  exact h

/-- Witness for C8 at concrete inputs: `MerkleSet(1, 1)` with the sample element
`sampleElem`, whose TERMINAL encoding is `sampleTerminal`. -/
theorem C8_empty_blank_singleton_terminal_witness :
    (get_root blakeModel 3).run (MerkleSetState.init 1 1)
      = .ok (BLANK, MerkleSetState.init 1 1) ∧
    (get_root blakeModel 3).run singletonState = .ok (sampleTerminal, singletonState) ∧
    (add_already_hashed 3 sampleElem).run (MerkleSetState.init 1 1)
      = .ok ((), singletonState) ∧
    (remove_already_hashed 3 sampleElem).run singletonState
      = .ok ((), MerkleSetState.init 1 1) := by
  have h := C8_empty_blank_singleton_terminal
  exact ⟨h.1 blakeModel 3 (MerkleSetState.init 1 1) rfl,
         h.2.1 blakeModel 3 singletonState sampleElem sampleTerminal rfl rfl,
         h.2.2.1 sampleElem sampleTerminal 3 1 1 rfl,
         h.2.2.2 sampleElem sampleTerminal 3 1 1 rfl⟩

/-- C9: membership is decided by only the low 254 bits of a hash. For two
32-byte hashes `a :: r` and (a-prime :: r) differing only in the top 2 bits of
byte 0 (`a &&& 63 = a-prime &&& 63`): their TERMINAL encodings coincide; `add`,
`remove` and `is_included` behave identically on them from every state; the root
after adding either to any state is the same; and after adding one to a fresh
set, querying the other returns `true`. -/
theorem C9_low254_bits_decide_membership (a a' : Nat) (r : Bytes) (hr : r.length = 31)
    (hbits : a &&& 63 = a' &&& 63) :
    flip_terminal (a :: r) = flip_terminal (a' :: r) ∧
    (∀ (fuel : Nat) (s : MerkleSetState), (add_already_hashed fuel (a :: r)).run s
        = (add_already_hashed fuel (a' :: r)).run s) ∧
    (∀ (fuel : Nat) (s : MerkleSetState), (remove_already_hashed fuel (a :: r)).run s
        = (remove_already_hashed fuel (a' :: r)).run s) ∧
    (∀ (blake : Bytes → Bytes) (fuel : Nat) (s : MerkleSetState),
        (is_included_already_hashed blake fuel (a :: r)).run s
          = (is_included_already_hashed blake fuel (a' :: r)).run s) ∧
    (∀ (blake : Bytes → Bytes) (fuel fuel2 : Nat) (s : MerkleSetState),
        ((add_already_hashed fuel (a :: r)) >>= fun _ => get_root blake fuel2).run s
          = ((add_already_hashed fuel (a' :: r)) >>= fun _ => get_root blake fuel2).run s) ∧
    (∀ (blake : Bytes → Bytes) (fuel fuel2 d u : Nat) (ft : Bytes),
        flip_terminal (a :: r) = .ok ft →
        ((add_already_hashed fuel (a :: r)) >>= fun _ =>
            is_included_already_hashed blake fuel2 (a' :: r)).run (MerkleSetState.init d u)
          = .ok ((true, ft), { MerkleSetState.init d u with root := ft })) := by
  have h1 : flip_terminal (a :: r) = flip_terminal (a' :: r) :=
    flip_eq_of_low254 a a' r hr hbits
  exact ⟨h1, fun fuel s => add_congr _ _ h1 fuel s,
         fun fuel s => remove_congr _ _ h1 fuel s,
         fun blake fuel s => inc_congr _ _ h1 blake fuel s,
         fun blake fuel fuel2 s => addroot_congr _ _ h1 blake fuel fuel2 s,
         fun blake fuel fuel2 d u ft hft =>
           query_after_add (a :: r) (a' :: r) ft hft (h1 ▸ hft) blake fuel fuel2 d u⟩

/-- Witness for C9 at concrete inputs: `sampleElem` begins with byte 5 and
`sampleElemFlipped` with byte 197 = 5 + 0xC0, so they differ exactly in the two
reserved tag bits; adding the first and querying the second returns `true`. -/
theorem C9_low254_bits_decide_membership_witness :
    flip_terminal sampleElem = flip_terminal sampleElemFlipped ∧
    (add_already_hashed 3 sampleElem).run (MerkleSetState.init 1 1)
      = (add_already_hashed 3 sampleElemFlipped).run (MerkleSetState.init 1 1) ∧
    ((add_already_hashed 3 sampleElem) >>= fun _ =>
        is_included_already_hashed blakeModel 3 sampleElemFlipped).run
          (MerkleSetState.init 1 1)
      = .ok ((true, sampleTerminal), singletonState) := by
  have h := C9_low254_bits_decide_membership 5 197 (List.replicate 31 9) rfl (by decide)
  exact ⟨h.1, h.2.1 3 (MerkleSetState.init 1 1),
         h.2.2.2.2.2 blakeModel 3 3 1 1 sampleTerminal rfl⟩

/-- C10: a membership query is observationally pure. From any state `s`, if
`is_included_already_hashed` succeeds and leaves state `s1`, then: `get_root`
on `s1` returns `s1.root` without touching the state (every lazy slot the query
could have rewritten already carries a valid non-INVALID tag, so no forcing
happens); that root equals the root `get_root` would have reported from `s`
directly; and every later query from `s1` returns exactly the same
boolean-and-proof answer as it would from `s`. -/
theorem C10_query_frame (blake : Bytes → Bytes) (fuel fuel2 : Nat) (x1 : Bytes)
    (s : MerkleSetState) (v1 : Bool × Bytes) (s1 : MerkleSetState)
    (h : (is_included_already_hashed blake fuel x1).run s = .ok (v1, s1)) :
    (get_root blake fuel2).run s1 = .ok (s1.root, s1) ∧
    ((get_root blake fuel).run s).map (fun p => p.1) = .ok s1.root ∧
    (∀ x2 : Bytes, (is_included_already_hashed blake fuel x2).run s1
        = (is_included_already_hashed blake fuel x2).run s) := by
  obtain ⟨rt, hgr⟩ := inc_post blake fuel x1 s v1 s1 h
  obtain ⟨hroot, t, hgt, hne⟩ := get_root_post blake fuel s rt s1 hgr
  have hgt1 : get_type s1.root 0 = .ok t := by rw [hroot]; exact hgt
  refine ⟨get_root_no_force blake fuel2 s1 t hgt1 hne, ?_, ?_⟩
  · rw [hgr]
    simp [Except.map, hroot]
  · intro x2
    have hgr1 : get_root blake fuel s1 = .ok (s1.root, s1) :=
      get_root_no_force blake fuel s1 t hgt1 hne
    have hgrs : get_root blake fuel s = .ok (rt, s1) := hgr
    show (is_included_already_hashed blake fuel x2) s1
        = (is_included_already_hashed blake fuel x2) s
    simp only [is_included_already_hashed, _is_included, stbind_app, stbind_app2, liftM_eq]
    cases hft2 : flip_terminal x2 with
    | error e => rfl
    | ok ft2 =>
      simp only [hgr1, hgrs, hroot]

/-- Witness for C10 at concrete inputs: querying `sampleElem` on the singleton
state succeeds, returns `(true, sampleTerminal)`, and leaves the state unchanged,
so the frame conditions hold there. -/
theorem C10_query_frame_witness :
    (get_root blakeModel 2).run singletonState
      = .ok (singletonState.root, singletonState) ∧
    ((get_root blakeModel 1).run singletonState).map (fun p => p.1)
      = .ok singletonState.root ∧
    (∀ x2 : Bytes, (is_included_already_hashed blakeModel 1 x2).run singletonState
        = (is_included_already_hashed blakeModel 1 x2).run singletonState) :=
  C10_query_frame blakeModel 1 2 sampleElem singletonState (true, sampleTerminal)
    singletonState rfl
